import Mathlib

/-!
Verification of the TLS/DTLS record layer (`src/lib/tls/tls_record.cpp`) and of
the binary extended-Euclidean modular-inverse reference (`inverse_mod_ref`)
shipped in the fuzzing harness of the same repository.

The C++ code is shallowly embedded: byte buffers become `List Nat` (each entry
a byte), machine integers become `Nat` with explicit `% 2^w` where the source
casts, fallible code returns `Except`, and the externally injected collaborators
(the AEAD engine, the sequence-number object) become explicit structures of
functions, exactly as the source consumes them through virtual interfaces.
-/

namespace TLSRecord

/-- `TLS_HEADER_SIZE` from the source. -/
def TLS_HEADER_SIZE : Nat := 5

/-- `DTLS_HEADER_SIZE` from the source. -/
def DTLS_HEADER_SIZE : Nat := 13

/-- `MAX_CIPHERTEXT_SIZE = 2^14 + 2048` from the source headers. -/
def MAX_CIPHERTEXT_SIZE : Nat := 2 ^ 14 + 2048

/-- The `Record_Type` sentinel `NO_RECORD`; its enum value (256) lies outside
the byte range, so it can never collide with a wire type byte. -/
def NO_RECORD : Nat := 256

/-- `Protocol_Version`: a `(major, minor)` pair of bytes. -/
structure Protocol_Version where
  major : Nat
  minor : Nat
deriving DecidableEq, Repr

/-- `Protocol_Version::is_datagram_protocol()`: true exactly when the major
version byte is 254 (the DTLS convention). -/
def Protocol_Version.is_datagram_protocol (v : Protocol_Version) : Bool :=
  v.major == 254

/-- `Nonce_Format` from `tls_ciphersuite.h`. -/
inductive Nonce_Format where
  | CBC_MODE
  | AEAD_XOR_12
  | AEAD_IMPLICIT_4
deriving DecidableEq, Repr

/-- Alert descriptions raised by the record layer (`Alert::...`). -/
inductive Alert where
  | PROTOCOL_VERSION
  | RECORD_OVERFLOW
  | DECODE_ERROR
  | BAD_RECORD_MAC
deriving DecidableEq, Repr

/-- The distinct exception kinds thrown by the embedded code:
`TLS_Exception(alert)`, `Decoding_Error`, the AEAD integrity failure raised by
`finish`, and `Internal_Error`/`BOTAN_ASSERT` failures. -/
inductive RecErr where
  | alert (a : Alert)
  | decoding_error
  | integrity_failure
  | internal_error
deriving DecidableEq, Repr

/-- `store_be(uint64)`: the 8-byte big-endian encoding. -/
def be64 (x : Nat) : List Nat :=
  [x / 2 ^ 56 % 256, x / 2 ^ 48 % 256, x / 2 ^ 40 % 256, x / 2 ^ 32 % 256,
   x / 2 ^ 24 % 256, x / 2 ^ 16 % 256, x / 2 ^ 8 % 256, x % 256]

/-- `load_be<uint64_t>`: reading 8 bytes big-endian. -/
def load_be64 (b : List Nat) : Nat :=
  b.getD 0 0 * 2 ^ 56 + b.getD 1 0 * 2 ^ 48 + b.getD 2 0 * 2 ^ 40 +
  b.getD 3 0 * 2 ^ 32 + b.getD 4 0 * 2 ^ 24 + b.getD 5 0 * 2 ^ 16 +
  b.getD 6 0 * 2 ^ 8 + b.getD 7 0

/-- `make_uint16(hi, lo)` on bytes. -/
def make_uint16 (hi lo : Nat) : Nat := hi * 256 + lo

/-- `xor_buf(dst, src, src_len)`: XOR `src` onto the first `src.length` bytes
of `dst`, leaving the tail of `dst` unchanged. -/
def xor_buf : List Nat → List Nat → List Nat
  | ds, [] => ds
  | [], _ => []
  | d :: ds, s :: ss => (d ^^^ s) :: xor_buf ds ss

/-- `copy_mem(&dst[off], src, src.length)`: overwrite `dst` at offset `off`
with the bytes of `src` (callers stay in bounds). -/
def listStore (dst : List Nat) (off : Nat) (src : List Nat) : List Nat :=
  dst.take off ++ src ++ dst.drop (off + src.length)

/-- The AEAD engine as the record layer consumes it (`AEAD_Mode`, or the
CBC+HMAC composite, behind the same virtual interface).  `proc nonce ad msg`
is `start(nonce); set_ad(ad); finish(msg)`: `none` models the integrity-check
exception a decryption object throws, an encryption object always succeeds. -/
structure AEAD_Mode where
  output_length : Nat → Nat
  minimum_final_size : Nat
  proc : List Nat → List Nat → List Nat → Option (List Nat)

/-- `Connection_Cipher_State`: nonce policy, the handshake-derived implicit
nonce `m_nonce`, and the AEAD engine. -/
structure Connection_Cipher_State where
  nonce_format : Nonce_Format
  nonce_bytes_from_handshake : Nat
  nonce_bytes_from_record : Nat
  nonce : List Nat
  aead : AEAD_Mode

namespace Connection_Cipher_State

/-- `Connection_Cipher_State::format_ad`: the 13-byte associated-data block.
The `msg_type` parameter is a `uint8_t` and `msg_length` a `uint16_t` in the
source, hence the reductions at entry. -/
def format_ad (seq ty : Nat) (version : Protocol_Version) (msg_length : Nat) :
    List Nat :=
  be64 seq ++
    [ty % 256, version.major % 256, version.minor % 256,
     msg_length % 65536 / 256, msg_length % 256]

/-- The write-side `aead_nonce(seq, rng)`.  The RNG is modelled as the byte
stream `rng` it would produce.  For `CBC_MODE` the one-shot implicit IV is
consumed (swap-and-clear), which is the only mutation, so the updated state is
returned alongside the nonce.  The `AEAD_IMPLICIT_4` branch checks the
`BOTAN_ASSERT_NOMSG(m_nonce.size() == 4)` assertion. -/
def aead_nonce_w (cs : Connection_Cipher_State) (seq : Nat) (rng : List Nat) :
    Except RecErr (List Nat × Connection_Cipher_State) :=
  match cs.nonce_format with
  | .CBC_MODE =>
    if cs.nonce ≠ [] then
      .ok (cs.nonce, { cs with nonce := [] })
    else
      .ok (rng.take cs.nonce_bytes_from_record, cs)
  | .AEAD_XOR_12 =>
    .ok (xor_buf (List.replicate 4 0 ++ be64 seq) cs.nonce, cs)
  | .AEAD_IMPLICIT_4 =>
    if cs.nonce.length ≠ 4 then .error .internal_error
    else
      .ok (listStore (listStore (List.replicate 12 0) 0 (cs.nonce.take 4))
             cs.nonce_bytes_from_handshake (be64 seq), cs)

/-- The read-side `aead_nonce(record, record_len, seq)`. -/
def aead_nonce_r (cs : Connection_Cipher_State) (record : List Nat)
    (record_len seq : Nat) : Except RecErr (List Nat) :=
  match cs.nonce_format with
  | .CBC_MODE =>
    if record_len < cs.nonce_bytes_from_record then .error .decoding_error
    else .ok (record.take cs.nonce_bytes_from_record)
  | .AEAD_XOR_12 =>
    .ok (xor_buf (List.replicate 4 0 ++ be64 seq) cs.nonce)
  | .AEAD_IMPLICIT_4 =>
    if cs.nonce.length ≠ 4 then .error .internal_error
    else if record_len < cs.nonce_bytes_from_record then .error .decoding_error
    else
      .ok (listStore (listStore (List.replicate 12 0) 0 (cs.nonce.take 4))
             cs.nonce_bytes_from_handshake (record.take cs.nonce_bytes_from_record))

end Connection_Cipher_State

/-- `append_u16_len`: push the 16-bit big-endian length, with the
`BOTAN_ASSERT_EQUAL(len_field, len16, "No truncation")` check. -/
def append_u16_len (len_field : Nat) : Except RecErr (List Nat) :=
  if len_field < 65536 then .ok [len_field / 256, len_field % 256]
  else .error .internal_error

/-- `write_record`: frame (and, when a cipher state is present, encrypt) one
record.  `aead.finish(output, header_size)` encrypts the payload in place, so
the output is header ∥ length ∥ explicit nonce bytes ∥ AEAD output. -/
def write_record (ty : Nat) (msg : List Nat) (version : Protocol_Version)
    (seq : Nat) (cso : Option Connection_Cipher_State) (rng : List Nat) :
    Except RecErr (List Nat × Option Connection_Cipher_State) := do
  let hdr := ty :: version.major :: version.minor ::
    (if version.is_datagram_protocol then be64 seq else [])
  match cso with
  | none => do
    let lenb ← append_u16_len msg.length
    pure (hdr ++ lenb ++ msg, none)
  | some cs => do
    let aad := Connection_Cipher_State.format_ad seq ty version msg.length
    let ctext_size := cs.aead.output_length msg.length
    let rec_size := ctext_size + cs.nonce_bytes_from_record
    let nc ← cs.aead_nonce_w seq rng
    let lenb ← append_u16_len rec_size
    let explicit_nonce :=
      if cs.nonce_bytes_from_record > 0 then
        if cs.nonce_format = .CBC_MODE then nc.1
        else (nc.1.drop cs.nonce_bytes_from_handshake).take cs.nonce_bytes_from_record
      else []
    let ctext := (cs.aead.proc nc.1 aad msg).getD []
    let out := hdr ++ lenb ++ explicit_nonce ++ ctext
    if out.length < MAX_CIPHERTEXT_SIZE then pure (out, some nc.2)
    else .error .internal_error

/-- `decrypt_record`: nonce extraction, the early length guard, associated
data from the plaintext length, then the AEAD `finish` (whose integrity
failure surfaces as an exception). -/
def decrypt_record (record_contents : List Nat) (record_sequence : Nat)
    (record_version : Protocol_Version) (record_type : Nat)
    (cs : Connection_Cipher_State) : Except RecErr (List Nat) := do
  let record_len := record_contents.length
  let nonce ← cs.aead_nonce_r record_contents record_len record_sequence
  let msg := record_contents.drop cs.nonce_bytes_from_record
  let msg_length := record_len - cs.nonce_bytes_from_record
  if msg_length < cs.aead.minimum_final_size then
    .error (.alert .BAD_RECORD_MAC)
  else
    let ptext_size := cs.aead.output_length msg_length
    let ad := Connection_Cipher_State.format_ad record_sequence
      (record_type % 256) record_version ptext_size
    match cs.aead.proc nonce ad msg with
    | some p => pure p
    | none => .error .integrity_failure

/-- The decoded record out-parameter (`Record`): type, version, sequence and
payload, all written through pointers by the readers. -/
structure Record where
  rtype : Nat
  version : Protocol_Version
  sequence : Nat
  data : List Nat
deriving DecidableEq, Repr

/-- The `Connection_Sequence_Numbers` virtual interface, as the readers
consume it, over an abstract state type `σ`. -/
structure SeqIface (σ : Type) where
  next_read_sequence : σ → Nat
  current_read_epoch : σ → Nat
  already_seen : σ → Nat → Bool
  read_accept : σ → Nat → σ

/-- What a reader call returns: either the `size_t` result (`0` = one record
produced, positive = bytes still needed) or a thrown exception. -/
inductive ReadOutcome where
  | ok (n : Nat)
  | err (e : RecErr)
deriving DecidableEq, Repr

/-- The state a reader call starts from and leaves behind: the persistent
read buffer, the `Record` out-parameter, and the sequence-number object. -/
structure ReaderState (σ : Type) where
  readbuf : List Nat
  rcd : Record
  sn : Option σ
deriving DecidableEq

/-- `fill_buffer_to(readbuf, input, input_size, consumed, desired)`: move
bytes from the input cursor into the read buffer until `desired` bytes are
buffered or the input runs dry; returns the new buffer, the remaining input,
and how many bytes are still missing (`input_consumed` is recoverable as the
drop in input length). -/
def fill_buffer_to (readbuf input : List Nat) (desired : Nat) :
    List Nat × List Nat × Nat :=
  if desired ≤ readbuf.length then (readbuf, input, 0)
  else
    let taken := min input.length (desired - readbuf.length)
    let readbuf2 := readbuf ++ input.take taken
    (readbuf2, input.drop taken, desired - readbuf2.length)

/-- The tail of `read_tls_record` once the whole record is buffered
(`*rec.get_type() = ...` onward): record type, sequence/epoch, the epoch-0
plaintext shortcut, else cipher-state lookup and decryption. -/
def read_tls_epilogue {σ : Type} (iface : SeqIface σ)
    (get_cipherstate : Nat → Option Connection_Cipher_State)
    (rec1 : Record) (sn : Option σ) (buf2 : List Nat) (record_size : Nat) :
    ReadOutcome × ReaderState σ :=
  let rtype := buf2.getD 0 0
  let sq := match sn with
    | some s => (iface.next_read_sequence s, iface.current_read_epoch s)
    | none => (0, 0)
  let rec2 := { rec1 with rtype := rtype, sequence := sq.1 }
  let record_contents := (buf2.drop TLS_HEADER_SIZE).take record_size
  if sq.2 = 0 then
    (.ok 0, ⟨[], { rec2 with data := record_contents }, sn⟩)
  else
    match get_cipherstate sq.2 with
    | none => (.err .internal_error, ⟨buf2, rec2, sn⟩)
    | some cs =>
      match decrypt_record record_contents sq.1 rec1.version rtype cs with
      | .error e => (.err e, ⟨buf2, rec2, sn⟩)
      | .ok ptext =>
        let sn2 := match sn with
          | some s => some (iface.read_accept s sq.1)
          | none => none
        (.ok 0, ⟨[], { rec2 with data := rec2.data ++ ptext }, sn2⟩)

/-- `read_tls_record`: the incremental stream-mode reader.  Exceptions become
`ReadOutcome.err`; a positive `ok` is the needed-more-bytes hint. -/
def read_tls_record {σ : Type} (iface : SeqIface σ)
    (get_cipherstate : Nat → Option Connection_Cipher_State)
    (st : ReaderState σ) (input : List Nat) : ReadOutcome × ReaderState σ :=
  let f1 :=
    if st.readbuf.length < TLS_HEADER_SIZE then
      fill_buffer_to st.readbuf input TLS_HEADER_SIZE
    else (st.readbuf, input, 0)
  if f1.2.2 ≠ 0 then (.ok f1.2.2, ⟨f1.1, st.rcd, st.sn⟩)
  else
    let version := Protocol_Version.mk (f1.1.getD 1 0) (f1.1.getD 2 0)
    let rec1 := { st.rcd with version := version }
    if version.is_datagram_protocol then
      (.err (.alert .PROTOCOL_VERSION), ⟨f1.1, rec1, st.sn⟩)
    else
      let record_size :=
        make_uint16 (f1.1.getD (TLS_HEADER_SIZE - 2) 0)
          (f1.1.getD (TLS_HEADER_SIZE - 1) 0)
      if record_size > MAX_CIPHERTEXT_SIZE then
        (.err (.alert .RECORD_OVERFLOW), ⟨f1.1, rec1, st.sn⟩)
      else if record_size = 0 then
        (.err (.alert .DECODE_ERROR), ⟨f1.1, rec1, st.sn⟩)
      else
        let f2 := fill_buffer_to f1.1 f1.2.1 (TLS_HEADER_SIZE + record_size)
        if f2.2.2 ≠ 0 then (.ok f2.2.2, ⟨f2.1, rec1, st.sn⟩)
        else
          read_tls_epilogue iface get_cipherstate rec1 st.sn f2.1 record_size

/-- The tail of `read_dtls_record` once the whole record is buffered: type,
wire sequence and epoch, the replay check, the epoch-0 shortcut, then the
`try`-wrapped decryption whose every failure is a silent drop. -/
def read_dtls_epilogue {σ : Type} (iface : SeqIface σ)
    (get_cipherstate : Nat → Option Connection_Cipher_State)
    (rec1 : Record) (sn : Option σ) (buf2 : List Nat) (record_size : Nat) :
    ReadOutcome × ReaderState σ :=
  let rtype := buf2.getD 0 0
  let seq := load_be64 (buf2.drop 3)
  let epoch := seq >>> 48
  let rec2 := { rec1 with rtype := rtype, sequence := seq }
  let seen := match sn with
    | some s => iface.already_seen s seq
    | none => false
  if seen then
    (.ok 0, ⟨[], { rec2 with rtype := NO_RECORD }, sn⟩)
  else
    let record_contents := (buf2.drop DTLS_HEADER_SIZE).take record_size
    if epoch = 0 then
      let sn2 := match sn with
        | some s => some (iface.read_accept s seq)
        | none => none
      (.ok 0, ⟨[], { rec2 with data := record_contents }, sn2⟩)
    else
      match get_cipherstate epoch with
      | none => (.ok 0, ⟨[], { rec2 with rtype := NO_RECORD }, sn⟩)
      | some cs =>
        match decrypt_record record_contents seq rec1.version rtype cs with
        | .error _ => (.ok 0, ⟨[], { rec2 with rtype := NO_RECORD }, sn⟩)
        | .ok ptext =>
          let sn2 := match sn with
            | some s => some (iface.read_accept s seq)
            | none => none
          (.ok 0, ⟨[], { rec2 with data := rec2.data ++ ptext }, sn2⟩)

/-- `read_dtls_record`: the datagram-mode reader.  Every early exit clears the
buffer and returns 0; malformed input after the version parse additionally
sets the `NO_RECORD` sentinel. -/
def read_dtls_record {σ : Type} (iface : SeqIface σ)
    (get_cipherstate : Nat → Option Connection_Cipher_State)
    (st : ReaderState σ) (input : List Nat) : ReadOutcome × ReaderState σ :=
  let f1 :=
    if st.readbuf.length < DTLS_HEADER_SIZE then
      fill_buffer_to st.readbuf input DTLS_HEADER_SIZE
    else (st.readbuf, input, 0)
  if f1.2.2 ≠ 0 then (.ok 0, ⟨[], st.rcd, st.sn⟩)
  else
    let version := Protocol_Version.mk (f1.1.getD 1 0) (f1.1.getD 2 0)
    let rec1 := { st.rcd with version := version }
    if version.is_datagram_protocol = false then
      (.ok 0, ⟨[], { rec1 with rtype := NO_RECORD }, st.sn⟩)
    else
      let record_size :=
        make_uint16 (f1.1.getD (DTLS_HEADER_SIZE - 2) 0)
          (f1.1.getD (DTLS_HEADER_SIZE - 1) 0)
      if record_size > MAX_CIPHERTEXT_SIZE then
        (.ok 0, ⟨[], { rec1 with rtype := NO_RECORD }, st.sn⟩)
      else
        let f2 := fill_buffer_to f1.1 f1.2.1 (DTLS_HEADER_SIZE + record_size)
        if f2.2.2 ≠ 0 then
          (.ok 0, ⟨[], { rec1 with rtype := NO_RECORD }, st.sn⟩)
        else
          read_dtls_epilogue iface get_cipherstate rec1 st.sn f2.1 record_size

/-- `read_record`: dispatch on `raw_input.is_datagram()`. -/
def read_record {σ : Type} (is_datagram : Bool) (iface : SeqIface σ)
    (get_cipherstate : Nat → Option Connection_Cipher_State)
    (st : ReaderState σ) (input : List Nat) : ReadOutcome × ReaderState σ :=
  if is_datagram then read_dtls_record iface get_cipherstate st input
  else read_tls_record iface get_cipherstate st input

/-- Modelled from the spec: `Stream_Sequence_Numbers` (the
`tls_seq_numbers.h` implementation behind `Connection_Sequence_Numbers` is
not in src).  Spec §4.1: per-direction 64-bit counters, `next_read_sequence`
returns the sequence for the record about to be parsed, `read_accept`
advances it by one, and TLS has no replay window. -/
structure Stream_Sequence_Numbers where
  write_seq : Nat
  read_seq : Nat
  read_epoch : Nat
deriving DecidableEq, Repr

/-- Modelled from the spec: the write-side counter discipline (spec §4.1 and
invariant 1): each written record consumes the current write sequence and
advances it by one. -/
def Stream_Sequence_Numbers.next_write_sequence (s : Stream_Sequence_Numbers) :
    Nat × Stream_Sequence_Numbers :=
  (s.write_seq, { s with write_seq := s.write_seq + 1 })

/-- Modelled from the spec: the `SeqIface` view of `Stream_Sequence_Numbers`. -/
def streamIface : SeqIface Stream_Sequence_Numbers where
  next_read_sequence := fun s => s.read_seq
  current_read_epoch := fun s => s.read_epoch
  already_seen := fun _ _ => false
  read_accept := fun s _ => { s with read_seq := s.read_seq + 1 }

/-- Modelled from the spec: `Datagram_Sequence_Numbers` (not in src).  The
sliding replay window is abstracted to the set of accepted sequences, which
is all the claims consult (`already_seen` membership, `read_accept`
insertion); the window floor refinement only makes `already_seen` true more
often. -/
structure Datagram_Sequence_Numbers where
  read_epoch : Nat
  window : List Nat
deriving DecidableEq, Repr

/-- Modelled from the spec: the `SeqIface` view of
`Datagram_Sequence_Numbers`. -/
def datagramIface : SeqIface Datagram_Sequence_Numbers where
  next_read_sequence := fun _ => 0
  current_read_epoch := fun s => s.read_epoch
  already_seen := fun s q => s.window.contains q
  read_accept := fun s q => { s with window := q :: s.window }

end TLSRecord

namespace InverseMod

/-- `low_zero_bits`: the number of trailing zero bits, 0 for input 0. -/
def low_zero_bits (n : Nat) : Nat :=
  if n = 0 then 0
  else if n % 2 = 1 then 0
  else low_zero_bits (n / 2) + 1
decreasing_by exact Nat.div_lt_self (Nat.pos_of_ne_zero (by assumption)) (by omega)

/-- One halving step of the Euclidean coefficients: `if (B.is_odd()) B -= mod;
B >>= 1`.  After the conditional subtraction the value is even (the modulus is
odd), so the shift is an exact division by 2 under any rounding convention. -/
def halve_adjust (md B : Int) : Int :=
  (if B % 2 = 0 then B else B - md) / 2

/-- `halve_adjust` iterated once per stripped zero bit. -/
def halve_iter (md B : Int) : Nat → Int
  | 0 => B
  | k + 1 => halve_iter md (halve_adjust md B) k

/-- The `while(u.is_nonzero())` loop of `inverse_mod_ref`, with explicit fuel.
Each iteration strips the trailing zero bits of `u` and `v` (halving `B`
resp. `D` in step) and then subtracts the smaller of `u`, `v` from the larger
(the coefficients following).  The fuel only needs to exceed `u + v`: every
iteration with `v ≥ 1` strictly decreases `u + v` (on `v = 0`, which the
callers' early return for `n == 0` makes unreachable, the C++ loop does not
terminate). -/
def ref_loop (md : Int) (fuel u v : Nat) (B D : Int) : Nat × Int :=
  match fuel with
  | 0 => (v, D)
  | fuel + 1 =>
    if u = 0 then (v, D)
    else
      let zu := low_zero_bits u
      let u2 := u >>> zu
      let B2 := halve_iter md B zu
      let zv := low_zero_bits v
      let v2 := v >>> zv
      let D2 := halve_iter md D zv
      if v2 ≤ u2 then ref_loop md fuel (u2 - v2) v2 (B2 - D2) D2
      else ref_loop md fuel u2 (v2 - u2) B2 (D2 - B2)

/-- `inverse_mod_ref(n, mod)` from the fuzzing harness: binary extended
Euclid.  The two final normalization loops (`while(D.is_negative()) D += mod;
while(D >= mod) D -= mod`) compute exactly the representative of `D` in
`[0, mod)`, i.e. the Euclidean remainder. -/
def inverse_mod_ref (n md : Nat) : Nat :=
  if n = 0 then 0
  else
    let r := ref_loop md (md + n + 1) md n 0 1
    if r.1 ≠ 1 then 0
    else (r.2 % (md : Int)).toNat

/-- Modelled from the spec: `ct_inverse_mod_odd_modulus` (only its fuzz-test
caller is in src).  Per the claim it returns the modular inverse of `x`
modulo `mod` in `[0, mod)`, or 0 when `x = 0` or `gcd(x, mod) ≠ 1`; the
inverse is realized through the Bézout coefficient of `Nat.xgcd`. -/
def ct_inverse_mod_odd_modulus (x md : Nat) : Nat :=
  if x = 0 ∨ Nat.gcd x md ≠ 1 then 0
  else ((Nat.gcdA x md) % (md : Int)).toNat

end InverseMod

namespace TLSRecord

/-- A concrete checksum used to build an executable example AEAD pair for
instantiating the abstract-AEAD theorems. -/
def tagFn (nonce ad msg : List Nat) : Nat :=
  (nonce.sum + ad.sum + msg.sum) % 256

/-- An executable example encryption AEAD: appends a one-byte checksum tag. -/
def toyEnc : AEAD_Mode where
  output_length := fun n => n + 1
  minimum_final_size := 1
  proc := fun n a m => some (m ++ [tagFn n a m])

/-- The matching example decryption AEAD: strips and checks the tag. -/
def toyDec : AEAD_Mode where
  output_length := fun n => n - 1
  minimum_final_size := 1
  proc := fun n a c =>
    if c.getLast? = some (tagFn n a c.dropLast) then some c.dropLast else none

end TLSRecord

namespace TLSRecord

theorem getD_take_of_lt (l : List Nat) (n i : Nat) (h : i < n) :
    (l.take n).getD i 0 = l.getD i 0 := by
  simp [List.getD_eq_getElem?_getD, List.getElem?_take, h]

/-- Behaviour of `fill_buffer_to` when the buffer and the input are the two
halves of one byte string `l`: the result is again a split of `l`, at the
desired position (or at the end when `l` is too short), and the shortfall is
`desired - l.length`. -/
theorem fill_take_drop (l : List Nat) (k d : Nat) (hk : k ≤ d) :
    fill_buffer_to (l.take k) (l.drop k) d =
      (l.take d, l.drop d, d - l.length) := by
  simp only [fill_buffer_to]
  split_ifs with h1
  · rw [List.length_take] at h1
    have h2 : d ≤ k ∧ d ≤ l.length := Nat.le_min.mp h1
    have hkd : k = d := Nat.le_antisymm hk h2.1
    subst hkd
    have hz : k - l.length = 0 := Nat.sub_eq_zero_of_le h2.2
    simp [hz]
  · rw [List.length_take] at h1
    push_neg at h1
    rw [List.length_take, List.length_drop]
    rcases Nat.le_total k l.length with hkl | hkl
    · have hmin : k ⊓ l.length = k := by omega
      rw [hmin] at h1 ⊢
      have htake : (l.drop k).take ((l.length - k) ⊓ (d - k)) =
          (l.drop k).take (l.length ⊓ d - k) := by
        congr 1
        omega
      rw [htake]
      have hdrop : (l.drop k).drop ((l.length - k) ⊓ (d - k)) =
          (l.drop k).drop (l.length ⊓ d - k) := by
        congr 1
        omega
      rw [hdrop]
      have e1 : l.take k ++ (l.drop k).take (l.length ⊓ d - k) =
          l.take (l.length ⊓ d) := by
        have := List.take_add l k (l.length ⊓ d - k)
        rw [show k + (l.length ⊓ d - k) = l.length ⊓ d by omega] at this
        exact this.symm
      have e2 : (l.drop k).drop (l.length ⊓ d - k) = l.drop (l.length ⊓ d) := by
        rw [List.drop_drop]
        congr 1
        omega
      rw [e1, e2]
      have e3 : l.take (l.length ⊓ d) = l.take d := by
        rw [List.take_eq_take]
        omega
      have e4 : l.drop (l.length ⊓ d) = l.drop d := by
        rcases Nat.le_total d l.length with h | h
        · rw [show l.length ⊓ d = d by omega]
        · rw [List.drop_eq_nil_of_le (by omega), List.drop_eq_nil_of_le h]
      rw [e3, e4, List.length_take]
      have e5 : d - d ⊓ l.length = d - l.length := by omega
      rw [e5]
    · have hmin : k ⊓ l.length = l.length := by omega
      rw [hmin] at h1
      rw [List.take_of_length_le hkl, List.drop_eq_nil_of_le hkl]
      simp only [List.length_nil, List.take_nil, List.drop_nil, Nat.min_def]
      rw [List.take_of_length_le (by omega), List.drop_eq_nil_of_le (by omega)]
      simp

/-- `read_tls_record` on an empty buffer and a complete well-formed record:
the prologue succeeds and hands the full buffer to the epilogue. -/
theorem read_tls_record_complete {σ : Type} (iface : SeqIface σ)
    (get_cs : Nat → Option Connection_Cipher_State) (rec0 : Record)
    (sn : Option σ) (l : List Nat)
    (h5 : TLS_HEADER_SIZE ≤ l.length)
    (hnd : (Protocol_Version.mk (l.getD 1 0) (l.getD 2 0)).is_datagram_protocol
      = false)
    (hmax : make_uint16 (l.getD 3 0) (l.getD 4 0) ≤ MAX_CIPHERTEXT_SIZE)
    (h0 : make_uint16 (l.getD 3 0) (l.getD 4 0) ≠ 0)
    (hlen : l.length = TLS_HEADER_SIZE + make_uint16 (l.getD 3 0) (l.getD 4 0)) :
    read_tls_record iface get_cs ⟨[], rec0, sn⟩ l =
      read_tls_epilogue iface get_cs
        { rec0 with version := ⟨l.getD 1 0, l.getD 2 0⟩ } sn l
        (make_uint16 (l.getD 3 0) (l.getD 4 0)) := by
  have h5x : (5 : Nat) ≤ l.length := h5
  have e1 : fill_buffer_to ([] : List Nat) l TLS_HEADER_SIZE =
      (l.take 5, l.drop 5, 0) := by
    have h := fill_take_drop l 0 TLS_HEADER_SIZE (by omega)
    simp only [List.take_zero, List.drop_zero] at h
    rw [h]
    simp [TLS_HEADER_SIZE, Nat.sub_eq_zero_of_le h5x]
  have g1 : (l.take 5).getD 1 0 = l.getD 1 0 := getD_take_of_lt l 5 1 (by omega)
  have g2 : (l.take 5).getD 2 0 = l.getD 2 0 := getD_take_of_lt l 5 2 (by omega)
  have g3 : (l.take 5).getD 3 0 = l.getD 3 0 := getD_take_of_lt l 5 3 (by omega)
  have g4 : (l.take 5).getD 4 0 = l.getD 4 0 := getD_take_of_lt l 5 4 (by omega)
  have e2 : fill_buffer_to (l.take 5) (l.drop 5)
      (TLS_HEADER_SIZE + make_uint16 (l.getD 3 0) (l.getD 4 0)) = (l, [], 0) := by
    have h := fill_take_drop l 5
      (TLS_HEADER_SIZE + make_uint16 (l.getD 3 0) (l.getD 4 0))
      (by simp [TLS_HEADER_SIZE])
    rw [h, ← hlen]
    simp
  simp only [read_tls_record, List.length_nil, e1]
  norm_num [TLS_HEADER_SIZE]
  simp only [List.getD_eq_getElem?_getD] at hnd hmax h0 e2
  simp only [TLS_HEADER_SIZE] at e2
  simp only [hnd, Bool.false_eq_true, if_false, if_neg (Nat.not_lt.mpr hmax),
    if_neg h0, e2]
  simp

/-- `read_dtls_record` on an empty buffer and one complete datagram whose
prologue checks pass: the full buffer is handed to the epilogue. -/
theorem read_dtls_record_complete {σ : Type} (iface : SeqIface σ)
    (get_cs : Nat → Option Connection_Cipher_State) (rec0 : Record)
    (sn : Option σ) (l : List Nat)
    (h13 : DTLS_HEADER_SIZE ≤ l.length)
    (hd : (Protocol_Version.mk (l.getD 1 0) (l.getD 2 0)).is_datagram_protocol
      = true)
    (hmax : make_uint16 (l.getD 11 0) (l.getD 12 0) ≤ MAX_CIPHERTEXT_SIZE)
    (hlen : l.length
      = DTLS_HEADER_SIZE + make_uint16 (l.getD 11 0) (l.getD 12 0)) :
    read_dtls_record iface get_cs ⟨[], rec0, sn⟩ l =
      read_dtls_epilogue iface get_cs
        { rec0 with version := ⟨l.getD 1 0, l.getD 2 0⟩ } sn l
        (make_uint16 (l.getD 11 0) (l.getD 12 0)) := by
  have h13x : (13 : Nat) ≤ l.length := h13
  have e1 : fill_buffer_to ([] : List Nat) l DTLS_HEADER_SIZE =
      (l.take 13, l.drop 13, 0) := by
    have h := fill_take_drop l 0 DTLS_HEADER_SIZE (by omega)
    simp only [List.take_zero, List.drop_zero] at h
    rw [h]
    simp [DTLS_HEADER_SIZE, Nat.sub_eq_zero_of_le h13x]
  have g1 : (l.take 13).getD 1 0 = l.getD 1 0 := getD_take_of_lt l 13 1 (by omega)
  have g2 : (l.take 13).getD 2 0 = l.getD 2 0 := getD_take_of_lt l 13 2 (by omega)
  have g11 : (l.take 13).getD 11 0 = l.getD 11 0 :=
    getD_take_of_lt l 13 11 (by omega)
  have g12 : (l.take 13).getD 12 0 = l.getD 12 0 :=
    getD_take_of_lt l 13 12 (by omega)
  have e2 : fill_buffer_to (l.take 13) (l.drop 13)
      (13 + make_uint16 (l.getD 11 0) (l.getD 12 0)) = (l, [], 0) := by
    have h := fill_take_drop l 13
      (13 + make_uint16 (l.getD 11 0) (l.getD 12 0)) (by omega)
    have hlenx : l.length = 13 + make_uint16 (l.getD 11 0) (l.getD 12 0) := hlen
    rw [h, ← hlenx]
    simp
  simp only [read_dtls_record, List.length_nil, e1]
  norm_num [DTLS_HEADER_SIZE]
  simp only [List.getD_eq_getElem?_getD] at hd hmax e2
  simp only [hd, Bool.true_eq_false, if_false, if_neg (Nat.not_lt.mpr hmax), e2]
  simp

theorem xor_buf_length : ∀ (a b : List Nat), (xor_buf a b).length = a.length := by
  intro a
  induction a with
  | nil => intro b; cases b <;> rfl
  | cons d ds ih =>
    intro b
    cases b with
    | nil => rfl
    | cons s ss => simp [xor_buf, ih]

theorem xor_buf_comm_of_length_eq :
    ∀ (a b : List Nat), a.length = b.length → xor_buf a b = xor_buf b a := by
  intro a
  induction a with
  | nil => intro b h; cases b with
    | nil => rfl
    | cons s ss => simp at h
  | cons d ds ih =>
    intro b h
    cases b with
    | nil => simp at h
    | cons s ss =>
      simp only [List.length_cons, Nat.add_right_cancel_iff] at h
      simp [xor_buf, ih ss h, Nat.xor_comm]

theorem recerr_bind_ok {α β : Type} (x : α) (f : α → Except RecErr β) :
    (Except.ok x >>= f : Except RecErr β) = f x := rfl

/-- C8: in `AEAD_XOR_12` format both the write-side and the read-side nonce
derivations return the implicit nonce XORed with four zero bytes followed by
the big-endian sequence number, a 12-byte value (the read side ignores the
record bytes entirely). -/
theorem C8_aead_xor_12_nonce (cs : Connection_Cipher_State) (seq : Nat)
    (rng body : List Nat) (record_len : Nat)
    (hfmt : cs.nonce_format = .AEAD_XOR_12) (hlen : cs.nonce.length = 12) :
    cs.aead_nonce_w seq rng =
        .ok (xor_buf cs.nonce (List.replicate 4 0 ++ be64 seq), cs) ∧
      cs.aead_nonce_r body record_len seq =
        .ok (xor_buf cs.nonce (List.replicate 4 0 ++ be64 seq)) ∧
      (xor_buf cs.nonce (List.replicate 4 0 ++ be64 seq)).length = 12 := by
  have hcomm : xor_buf (List.replicate 4 0 ++ be64 seq) cs.nonce
      = xor_buf cs.nonce (List.replicate 4 0 ++ be64 seq) := by
    apply xor_buf_comm_of_length_eq
    simp [be64, hlen]
  refine ⟨?_, ?_, ?_⟩
  · unfold Connection_Cipher_State.aead_nonce_w
    rw [hfmt]
    show Except.ok (xor_buf (List.replicate 4 0 ++ be64 seq) cs.nonce, cs) = _
    rw [hcomm]
  · unfold Connection_Cipher_State.aead_nonce_r
    rw [hfmt]
    show Except.ok (xor_buf (List.replicate 4 0 ++ be64 seq) cs.nonce) = _
    rw [hcomm]
  · rw [xor_buf_length, hlen]

/-- C8 witness: with an all-`04` implicit nonce and sequence number 1, the
nonce is `04 04 04 04 04 04 04 04 04 04 04 05` on both sides. -/
theorem C8_aead_xor_12_nonce_witness :
    (Connection_Cipher_State.aead_nonce_w
        ⟨.AEAD_XOR_12, 12, 0, List.replicate 12 4, toyEnc⟩ 1 [] =
      .ok (xor_buf (List.replicate 12 4) (List.replicate 4 0 ++ be64 1),
        ⟨.AEAD_XOR_12, 12, 0, List.replicate 12 4, toyEnc⟩)) ∧
    (Connection_Cipher_State.aead_nonce_r
        ⟨.AEAD_XOR_12, 12, 0, List.replicate 12 4, toyEnc⟩ [9, 9] 2 1 =
      .ok (xor_buf (List.replicate 12 4) (List.replicate 4 0 ++ be64 1))) ∧
    (xor_buf (List.replicate 12 4) (List.replicate 4 0 ++ be64 1)).length = 12 ∧
    xor_buf (List.replicate 12 4) (List.replicate 4 0 ++ be64 1)
      = [4, 4, 4, 4, 4, 4, 4, 4, 4, 4, 4, 5] := by
  have h := C8_aead_xor_12_nonce
    ⟨.AEAD_XOR_12, 12, 0, List.replicate 12 4, toyEnc⟩ 1 [] [9, 9] 2
    rfl (by decide)
  exact ⟨h.1, h.2.1, h.2.2, by decide⟩

/-- C7: `format_ad` is the 13-byte block `be64(seq) ∥ type ∥ major ∥ minor ∥
be16(plaintext_length)`, and `decrypt_record` binds the associated data with
`aead.output_length` of the ciphertext length (the plaintext length) as the
final field. -/
theorem C7_format_ad (seq ty : Nat) (ver : Protocol_Version) (len : Nat)
    (body : List Nat) (cs : Connection_Cipher_State) (nonce : List Nat)
    (hty : ty < 256) (hmaj : ver.major < 256) (hmin : ver.minor < 256)
    (hlen : len < 65536)
    (hnonce : cs.aead_nonce_r body body.length seq = .ok nonce)
    (hguard : cs.aead.minimum_final_size
      ≤ body.length - cs.nonce_bytes_from_record) :
    Connection_Cipher_State.format_ad seq ty ver len
        = be64 seq ++ [ty, ver.major, ver.minor, len / 256, len % 256] ∧
      (Connection_Cipher_State.format_ad seq ty ver len).length = 13 ∧
      decrypt_record body seq ver ty cs =
        (match cs.aead.proc nonce
            (Connection_Cipher_State.format_ad seq ty ver
              (cs.aead.output_length
                (body.length - cs.nonce_bytes_from_record)))
            (body.drop cs.nonce_bytes_from_record) with
          | some p => .ok p
          | none => .error .integrity_failure) := by
  refine ⟨?_, ?_, ?_⟩
  · simp [Connection_Cipher_State.format_ad, Nat.mod_eq_of_lt hty,
      Nat.mod_eq_of_lt hmaj, Nat.mod_eq_of_lt hmin, Nat.mod_eq_of_lt hlen,
      Nat.mod_eq_of_lt (show len % 256 < 256 from Nat.mod_lt _ (by norm_num))]
  · simp [Connection_Cipher_State.format_ad, be64]
  · have hmm : ty % 256 % 256 = ty % 256 := Nat.mod_mod_of_dvd ty dvd_rfl
    have had : Connection_Cipher_State.format_ad seq (ty % 256) ver
        (cs.aead.output_length (body.length - cs.nonce_bytes_from_record))
        = Connection_Cipher_State.format_ad seq ty ver
          (cs.aead.output_length (body.length - cs.nonce_bytes_from_record)) := by
      simp [Connection_Cipher_State.format_ad, hmm]
    simp only [decrypt_record, hnonce, recerr_bind_ok,
      if_neg (Nat.not_lt.mpr hguard), had]
    rfl

/-- C7 witness: a concrete instantiation with the example decryption AEAD in
`AEAD_XOR_12` format. -/
theorem C7_format_ad_witness :
    Connection_Cipher_State.format_ad 1 22 ⟨3, 3⟩ 3
        = be64 1 ++ [22, 3, 3, 3 / 256, 3 % 256] ∧
      (Connection_Cipher_State.format_ad 1 22 ⟨3, 3⟩ 3).length = 13 ∧
      decrypt_record [1, 2, 3, 9] 1 ⟨3, 3⟩ 22
          ⟨.AEAD_XOR_12, 12, 0, List.replicate 12 4, toyDec⟩ =
        (match toyDec.proc (xor_buf (List.replicate 12 4)
              (List.replicate 4 0 ++ be64 1))
            (Connection_Cipher_State.format_ad 1 22 ⟨3, 3⟩
              (toyDec.output_length 4)) [1, 2, 3, 9] with
          | some p => .ok p
          | none => .error .integrity_failure) := by
  have h := C7_format_ad 1 22 ⟨3, 3⟩ 3 [1, 2, 3, 9]
    ⟨.AEAD_XOR_12, 12, 0, List.replicate 12 4, toyDec⟩
    (xor_buf (List.replicate 12 4) (List.replicate 4 0 ++ be64 1))
    (by decide) (by decide) (by decide) (by decide) (by rfl) (by decide)
  exact h

/-- C6: when the record body minus the explicit-nonce bytes is shorter than
the AEAD's minimum final size, `decrypt_record` fails with the *bad record
MAC* alert (not a decode error), before the AEAD ever processes the message
bytes (the conclusion holds for every `proc` the cipher state may carry). -/
theorem C6_early_length_guard (body : List Nat) (seq : Nat)
    (ver : Protocol_Version) (ty : Nat) (cs : Connection_Cipher_State)
    (hfr : cs.nonce_bytes_from_record ≤ body.length)
    (himpl : cs.nonce_format = .AEAD_IMPLICIT_4 → cs.nonce.length = 4)
    (hguard : body.length - cs.nonce_bytes_from_record
      < cs.aead.minimum_final_size) :
    decrypt_record body seq ver ty cs = .error (.alert .BAD_RECORD_MAC) := by
  have hn : ∃ x, cs.aead_nonce_r body body.length seq = Except.ok x := by
    unfold Connection_Cipher_State.aead_nonce_r
    cases hfmt : cs.nonce_format with
    | CBC_MODE =>
      refine ⟨body.take cs.nonce_bytes_from_record, ?_⟩
      show (if body.length < cs.nonce_bytes_from_record then
          (Except.error RecErr.decoding_error : Except RecErr (List Nat))
        else Except.ok (body.take cs.nonce_bytes_from_record)) = _
      rw [if_neg (Nat.not_lt.mpr hfr)]
    | AEAD_XOR_12 =>
      exact ⟨_, rfl⟩
    | AEAD_IMPLICIT_4 =>
      refine ⟨listStore (listStore (List.replicate 12 0) 0 (cs.nonce.take 4))
        cs.nonce_bytes_from_handshake (body.take cs.nonce_bytes_from_record), ?_⟩
      show (if cs.nonce.length ≠ 4 then
          (Except.error RecErr.internal_error : Except RecErr (List Nat))
        else if body.length < cs.nonce_bytes_from_record then
          Except.error RecErr.decoding_error
        else Except.ok (listStore
          (listStore (List.replicate 12 0) 0 (cs.nonce.take 4))
          cs.nonce_bytes_from_handshake
          (body.take cs.nonce_bytes_from_record))) = _
      rw [if_neg (by simp [himpl hfmt]), if_neg (Nat.not_lt.mpr hfr)]
  obtain ⟨x, hx⟩ := hn
  simp only [decrypt_record, hx, recerr_bind_ok, if_pos hguard]

/-- C6 witness: a 0-byte message part against an AEAD demanding at least one
byte trips the guard with *bad record MAC*. -/
theorem C6_early_length_guard_witness :
    decrypt_record [] 1 ⟨3, 3⟩ 22
        ⟨.AEAD_XOR_12, 12, 0, List.replicate 12 4, toyDec⟩ =
      .error (.alert .BAD_RECORD_MAC) :=
  C6_early_length_guard [] 1 ⟨3, 3⟩ 22
    ⟨.AEAD_XOR_12, 12, 0, List.replicate 12 4, toyDec⟩
    (by decide) (by intro h; cases h) (by decide)

/-- C5: feeding the DTLS reader a complete record whose 64-bit sequence the
replay window has already accepted returns 0 with `NO_RECORD`, clears the
buffer, and leaves the sequence-number object untouched (`read_accept` is
never reached). -/
theorem C5_dtls_replay_rejection {σ : Type} (iface : SeqIface σ)
    (get_cs : Nat → Option Connection_Cipher_State) (rec0 : Record) (s : σ)
    (l : List Nat)
    (h13 : DTLS_HEADER_SIZE ≤ l.length)
    (hd : (Protocol_Version.mk (l.getD 1 0) (l.getD 2 0)).is_datagram_protocol
      = true)
    (hmax : make_uint16 (l.getD 11 0) (l.getD 12 0) ≤ MAX_CIPHERTEXT_SIZE)
    (hlen : l.length
      = DTLS_HEADER_SIZE + make_uint16 (l.getD 11 0) (l.getD 12 0))
    (hseen : iface.already_seen s (load_be64 (l.drop 3)) = true) :
    read_dtls_record iface get_cs ⟨[], rec0, some s⟩ l =
      (.ok 0, ⟨[], ⟨NO_RECORD, ⟨l.getD 1 0, l.getD 2 0⟩, load_be64 (l.drop 3),
        rec0.data⟩, some s⟩) := by
  rw [read_dtls_record_complete iface get_cs rec0 (some s) l h13 hd hmax hlen]
  simp [read_dtls_epilogue, hseen]

/-- C5 witness: the spec's S5 scenario, sequence `(epoch=1, seq=5)` replayed
against a window that already contains it. -/
theorem C5_dtls_replay_rejection_witness :
    read_dtls_record datagramIface (fun _ => none)
        ⟨[], ⟨0, ⟨0, 0⟩, 0, []⟩, some ⟨1, [(1 <<< 48) + 5]⟩⟩
        [22, 254, 253, 0, 1, 0, 0, 0, 0, 0, 5, 0, 3, 9, 9, 9] =
      (.ok 0, ⟨[], ⟨NO_RECORD, ⟨254, 253⟩, (1 <<< 48) + 5, []⟩,
        some ⟨1, [(1 <<< 48) + 5]⟩⟩) := by
  have h := C5_dtls_replay_rejection datagramIface (fun _ => none)
    ⟨0, ⟨0, 0⟩, 0, []⟩ ⟨1, [(1 <<< 48) + 5]⟩
    [22, 254, 253, 0, 1, 0, 0, 0, 0, 0, 5, 0, 3, 9, 9, 9]
    (by decide) (by decide) (by decide) (by decide) (by decide)
  exact h.trans (by decide)

/-- C2: the DTLS reader is total — every call returns 0, never an exception —
and whenever record decryption fails (nonce extraction, length guard, tag
check, or a missing cipher state), the call returns 0 with the record type
set to `NO_RECORD` and the read buffer cleared. -/
theorem C2_dtls_silent_drop :
    (∀ {σ : Type} (iface : SeqIface σ)
        (get_cs : Nat → Option Connection_Cipher_State) (st : ReaderState σ)
        (input : List Nat),
      (read_dtls_record iface get_cs st input).1 = .ok 0) ∧
    (∀ {σ : Type} (iface : SeqIface σ)
        (get_cs : Nat → Option Connection_Cipher_State) (rec0 : Record)
        (sno : Option σ) (l : List Nat),
      DTLS_HEADER_SIZE ≤ l.length →
      (Protocol_Version.mk (l.getD 1 0) (l.getD 2 0)).is_datagram_protocol
        = true →
      make_uint16 (l.getD 11 0) (l.getD 12 0) ≤ MAX_CIPHERTEXT_SIZE →
      l.length = DTLS_HEADER_SIZE + make_uint16 (l.getD 11 0) (l.getD 12 0) →
      (match sno with
        | some s => iface.already_seen s (load_be64 (l.drop 3))
        | none => false) = false →
      load_be64 (l.drop 3) >>> 48 ≠ 0 →
      (match get_cs (load_be64 (l.drop 3) >>> 48) with
        | none => True
        | some cs => ∃ e, decrypt_record
            ((l.drop DTLS_HEADER_SIZE).take
              (make_uint16 (l.getD 11 0) (l.getD 12 0)))
            (load_be64 (l.drop 3)) ⟨l.getD 1 0, l.getD 2 0⟩ (l.getD 0 0) cs
            = .error e) →
      read_dtls_record iface get_cs ⟨[], rec0, sno⟩ l =
        (.ok 0, ⟨[], ⟨NO_RECORD, ⟨l.getD 1 0, l.getD 2 0⟩,
          load_be64 (l.drop 3), rec0.data⟩, sno⟩)) := by
  constructor
  · intro σ iface get_cs st input
    simp only [read_dtls_record, read_dtls_epilogue]
    repeat' split
    all_goals rfl
  · intro σ iface get_cs rec0 sno l h13 hd hmax hlen hseen hep hfail
    rw [read_dtls_record_complete iface get_cs rec0 sno l h13 hd hmax hlen]
    simp only [read_dtls_epilogue, DTLS_HEADER_SIZE, hseen,
      Bool.false_eq_true, if_false, if_neg hep]
    cases hcs : get_cs (load_be64 (l.drop 3) >>> 48) with
    | none => simp [hcs]
    | some cs =>
      rw [hcs] at hfail
      obtain ⟨e, he⟩ := hfail
      simp only [DTLS_HEADER_SIZE, List.getD_eq_getElem?_getD] at he
      simp [hcs, he]

/-- C2 witness: the totality part at one concrete call, and a concrete
encrypted-epoch datagram whose cipher-state lookup fails, silently dropped. -/
theorem C2_dtls_silent_drop_witness :
    (read_dtls_record datagramIface (fun _ => none)
        ⟨[7], ⟨0, ⟨0, 0⟩, 0, []⟩, none⟩ [1, 2]).1 = .ok 0 ∧
    read_dtls_record datagramIface (fun _ => none)
        ⟨[], ⟨0, ⟨0, 0⟩, 0, []⟩, some ⟨1, []⟩⟩
        [22, 254, 253, 0, 1, 0, 0, 0, 0, 0, 9, 0, 1, 42] =
      (.ok 0, ⟨[], ⟨NO_RECORD, ⟨254, 253⟩, (1 <<< 48) + 9, []⟩,
        some ⟨1, []⟩⟩) := by
  constructor
  · exact C2_dtls_silent_drop.1 datagramIface (fun _ => none)
      ⟨[7], ⟨0, ⟨0, 0⟩, 0, []⟩, none⟩ [1, 2]
  · have h := C2_dtls_silent_drop.2 datagramIface (fun _ => none)
      ⟨0, ⟨0, 0⟩, 0, []⟩ (some ⟨1, []⟩)
      [22, 254, 253, 0, 1, 0, 0, 0, 0, 0, 9, 0, 1, 42]
      (by decide) (by decide) (by decide) (by decide) (by decide) (by decide)
      (by decide)
    exact h.trans (by decide)

/-- C3 counterexample: a complete epoch-0 TLS record with a sequence-number
object present.  The reader returns 0 and delivers the record, but the
sequence state is unchanged — `read_accept` (which would have bumped
`read_seq` to 8) was not called, contradicting the claim that epoch-0
dispatch calls `read_accept` in both modes whenever the object is present. -/
theorem C3_counterexample :
    (read_tls_record streamIface (fun _ => none)
        ⟨[], ⟨0, ⟨0, 0⟩, 0, []⟩, some ⟨0, 7, 0⟩⟩ [22, 3, 3, 0, 1, 99]) =
      (.ok 0, ⟨[], ⟨22, ⟨3, 3⟩, 7, [99]⟩, some ⟨0, 7, 0⟩⟩) ∧
    streamIface.read_accept ⟨0, 7, 0⟩ 7 ≠ ⟨0, 7, 0⟩ := by
  exact ⟨by decide, by decide⟩

/-- C3 (amended): when the computed epoch is 0, both readers copy bytes
`[H..H+record_size]` into the record's data, set the type from byte 0, clear
the read buffer and return 0; but `read_accept(seq)` is called only by the
DTLS reader — the TLS epoch-0 path leaves the sequence-number object
untouched. -/
theorem C3_epoch0_dispatch :
    (∀ {σ : Type} (iface : SeqIface σ)
        (get_cs : Nat → Option Connection_Cipher_State) (rec0 : Record)
        (sno : Option σ) (l : List Nat),
      TLS_HEADER_SIZE ≤ l.length →
      (Protocol_Version.mk (l.getD 1 0) (l.getD 2 0)).is_datagram_protocol
        = false →
      make_uint16 (l.getD 3 0) (l.getD 4 0) ≤ MAX_CIPHERTEXT_SIZE →
      make_uint16 (l.getD 3 0) (l.getD 4 0) ≠ 0 →
      l.length = TLS_HEADER_SIZE + make_uint16 (l.getD 3 0) (l.getD 4 0) →
      (match sno with
        | some s => iface.current_read_epoch s
        | none => 0) = 0 →
      read_tls_record iface get_cs ⟨[], rec0, sno⟩ l =
        (.ok 0, ⟨[], ⟨l.getD 0 0, ⟨l.getD 1 0, l.getD 2 0⟩,
          (match sno with
            | some s => iface.next_read_sequence s
            | none => 0),
          (l.drop TLS_HEADER_SIZE).take
            (make_uint16 (l.getD 3 0) (l.getD 4 0))⟩, sno⟩)) ∧
    (∀ {σ : Type} (iface : SeqIface σ)
        (get_cs : Nat → Option Connection_Cipher_State) (rec0 : Record)
        (sno : Option σ) (l : List Nat),
      DTLS_HEADER_SIZE ≤ l.length →
      (Protocol_Version.mk (l.getD 1 0) (l.getD 2 0)).is_datagram_protocol
        = true →
      make_uint16 (l.getD 11 0) (l.getD 12 0) ≤ MAX_CIPHERTEXT_SIZE →
      l.length = DTLS_HEADER_SIZE + make_uint16 (l.getD 11 0) (l.getD 12 0) →
      (match sno with
        | some s => iface.already_seen s (load_be64 (l.drop 3))
        | none => false) = false →
      load_be64 (l.drop 3) >>> 48 = 0 →
      read_dtls_record iface get_cs ⟨[], rec0, sno⟩ l =
        (.ok 0, ⟨[], ⟨l.getD 0 0, ⟨l.getD 1 0, l.getD 2 0⟩,
          load_be64 (l.drop 3),
          (l.drop DTLS_HEADER_SIZE).take
            (make_uint16 (l.getD 11 0) (l.getD 12 0))⟩,
          match sno with
          | some s => some (iface.read_accept s (load_be64 (l.drop 3)))
          | none => none⟩)) := by
  constructor
  · intro σ iface get_cs rec0 sno l h5 hnd hmax h0 hlen hep
    rw [read_tls_record_complete iface get_cs rec0 sno l h5 hnd hmax h0 hlen]
    cases sno with
    | none => simp [read_tls_epilogue]
    | some s =>
      have hep2 : iface.current_read_epoch s = 0 := by simpa using hep
      simp [read_tls_epilogue, hep2]
  · intro σ iface get_cs rec0 sno l h13 hd hmax hlen hseen hep
    rw [read_dtls_record_complete iface get_cs rec0 sno l h13 hd hmax hlen]
    cases sno with
    | none => simp [read_dtls_epilogue, hep]
    | some s =>
      have hseen2 : iface.already_seen s (load_be64 (l.drop 3)) = false := by
        simpa using hseen
      simp [read_dtls_epilogue, hseen2, hep]

/-- C3 (amended) witness: the TLS part on the counterexample input (sequence
object untouched) and the DTLS part on an epoch-0 datagram (window updated
by `read_accept`). -/
theorem C3_epoch0_dispatch_witness :
    read_tls_record streamIface (fun _ => none)
        ⟨[], ⟨0, ⟨0, 0⟩, 0, []⟩, some ⟨0, 7, 0⟩⟩ [22, 3, 3, 0, 1, 99] =
      (.ok 0, ⟨[], ⟨22, ⟨3, 3⟩, 7, [99]⟩, some ⟨0, 7, 0⟩⟩) ∧
    read_dtls_record datagramIface (fun _ => none)
        ⟨[], ⟨0, ⟨0, 0⟩, 0, []⟩, some ⟨0, []⟩⟩
        [23, 254, 253, 0, 0, 0, 0, 0, 0, 0, 4, 0, 2, 8, 9] =
      (.ok 0, ⟨[], ⟨23, ⟨254, 253⟩, 4, [8, 9]⟩, some ⟨0, [4]⟩⟩) := by
  constructor
  · have h := C3_epoch0_dispatch.1 streamIface (fun _ => none)
      ⟨0, ⟨0, 0⟩, 0, []⟩ (some ⟨0, 7, 0⟩) [22, 3, 3, 0, 1, 99]
      (by decide) (by decide) (by decide) (by decide) (by decide) (by decide)
    exact h.trans (by decide)
  · have h := C3_epoch0_dispatch.2 datagramIface (fun _ => none)
      ⟨0, ⟨0, 0⟩, 0, []⟩ (some ⟨0, []⟩)
      [23, 254, 253, 0, 0, 0, 0, 0, 0, 0, 4, 0, 2, 8, 9]
      (by decide) (by decide) (by decide) (by decide) (by decide) (by decide)
    exact h.trans (by decide)

/-- C4 counterexample: a DTLS datagram carrying `record_size = 0` (type byte
22, epoch 0).  The claim says the DTLS reader silently drops it
(`no_record`); the code has no zero-size check and delivers it as an empty
record with its real type, 22 ≠ `NO_RECORD`. -/
theorem C4_counterexample :
    read_dtls_record datagramIface (fun _ => none)
        ⟨[], ⟨0, ⟨0, 0⟩, 0, []⟩, some ⟨0, []⟩⟩
        [22, 254, 253, 0, 0, 0, 0, 0, 0, 0, 0, 0, 0] =
      (.ok 0, ⟨[], ⟨22, ⟨254, 253⟩, 0, []⟩, some ⟨0, [0]⟩⟩) ∧
    (22 : Nat) ≠ NO_RECORD := by
  exact ⟨by decide, by decide⟩

/-- C4 (amended): after parsing the big-endian length field, a record size
above `MAX_CIPHERTEXT_SIZE` makes the TLS reader raise the *record overflow*
alert and the DTLS reader silently drop (`NO_RECORD`, return 0); a record
size of zero makes the TLS reader raise the *decode error* alert, while the
DTLS reader performs no zero-size check and processes the record normally —
in particular a zero-size epoch-0 datagram is delivered as an empty record
carrying its genuine type byte (which, being a byte, is never `NO_RECORD`). -/
theorem C4_record_size_validation :
    (∀ {σ : Type} (iface : SeqIface σ)
        (get_cs : Nat → Option Connection_Cipher_State) (rec0 : Record)
        (sno : Option σ) (l : List Nat),
      TLS_HEADER_SIZE ≤ l.length →
      (Protocol_Version.mk (l.getD 1 0) (l.getD 2 0)).is_datagram_protocol
        = false →
      MAX_CIPHERTEXT_SIZE < make_uint16 (l.getD 3 0) (l.getD 4 0) →
      read_tls_record iface get_cs ⟨[], rec0, sno⟩ l =
        (.err (.alert .RECORD_OVERFLOW), ⟨l.take 5,
          ⟨rec0.rtype, ⟨l.getD 1 0, l.getD 2 0⟩, rec0.sequence, rec0.data⟩,
          sno⟩)) ∧
    (∀ {σ : Type} (iface : SeqIface σ)
        (get_cs : Nat → Option Connection_Cipher_State) (rec0 : Record)
        (sno : Option σ) (l : List Nat),
      TLS_HEADER_SIZE ≤ l.length →
      (Protocol_Version.mk (l.getD 1 0) (l.getD 2 0)).is_datagram_protocol
        = false →
      make_uint16 (l.getD 3 0) (l.getD 4 0) = 0 →
      read_tls_record iface get_cs ⟨[], rec0, sno⟩ l =
        (.err (.alert .DECODE_ERROR), ⟨l.take 5,
          ⟨rec0.rtype, ⟨l.getD 1 0, l.getD 2 0⟩, rec0.sequence, rec0.data⟩,
          sno⟩)) ∧
    (∀ {σ : Type} (iface : SeqIface σ)
        (get_cs : Nat → Option Connection_Cipher_State) (rec0 : Record)
        (sno : Option σ) (l : List Nat),
      DTLS_HEADER_SIZE ≤ l.length →
      (Protocol_Version.mk (l.getD 1 0) (l.getD 2 0)).is_datagram_protocol
        = true →
      MAX_CIPHERTEXT_SIZE < make_uint16 (l.getD 11 0) (l.getD 12 0) →
      read_dtls_record iface get_cs ⟨[], rec0, sno⟩ l =
        (.ok 0, ⟨[],
          ⟨NO_RECORD, ⟨l.getD 1 0, l.getD 2 0⟩, rec0.sequence, rec0.data⟩,
          sno⟩)) ∧
    (∀ {σ : Type} (iface : SeqIface σ)
        (get_cs : Nat → Option Connection_Cipher_State) (rec0 : Record)
        (sno : Option σ) (l : List Nat),
      DTLS_HEADER_SIZE ≤ l.length →
      (Protocol_Version.mk (l.getD 1 0) (l.getD 2 0)).is_datagram_protocol
        = true →
      make_uint16 (l.getD 11 0) (l.getD 12 0) = 0 →
      l.length = DTLS_HEADER_SIZE →
      (match sno with
        | some s => iface.already_seen s (load_be64 (l.drop 3))
        | none => false) = false →
      load_be64 (l.drop 3) >>> 48 = 0 →
      l.getD 0 0 < 256 →
      read_dtls_record iface get_cs ⟨[], rec0, sno⟩ l =
          (.ok 0, ⟨[], ⟨l.getD 0 0, ⟨l.getD 1 0, l.getD 2 0⟩,
            load_be64 (l.drop 3), []⟩,
            match sno with
            | some s => some (iface.read_accept s (load_be64 (l.drop 3)))
            | none => none⟩) ∧
        l.getD 0 0 ≠ NO_RECORD) := by
  refine ⟨?_, ?_, ?_, ?_⟩
  · intro σ iface get_cs rec0 sno l h5 hnd hover
    have h5x : (5 : Nat) ≤ l.length := h5
    have e1 : fill_buffer_to ([] : List Nat) l TLS_HEADER_SIZE =
        (l.take 5, l.drop 5, 0) := by
      have h := fill_take_drop l 0 TLS_HEADER_SIZE (by omega)
      simp only [List.take_zero, List.drop_zero] at h
      rw [h]
      simp [TLS_HEADER_SIZE, Nat.sub_eq_zero_of_le h5x]
    simp only [read_tls_record, List.length_nil, e1]
    norm_num [TLS_HEADER_SIZE]
    simp only [List.getD_eq_getElem?_getD] at hnd hover
    simp only [hnd, Bool.false_eq_true, if_false, if_pos hover]
  · intro σ iface get_cs rec0 sno l h5 hnd h0
    have h5x : (5 : Nat) ≤ l.length := h5
    have e1 : fill_buffer_to ([] : List Nat) l TLS_HEADER_SIZE =
        (l.take 5, l.drop 5, 0) := by
      have h := fill_take_drop l 0 TLS_HEADER_SIZE (by omega)
      simp only [List.take_zero, List.drop_zero] at h
      rw [h]
      simp [TLS_HEADER_SIZE, Nat.sub_eq_zero_of_le h5x]
    simp only [read_tls_record, List.length_nil, e1]
    norm_num [TLS_HEADER_SIZE]
    simp only [List.getD_eq_getElem?_getD] at hnd h0
    simp only [hnd, Bool.false_eq_true, if_false, h0, MAX_CIPHERTEXT_SIZE]
    norm_num
  · intro σ iface get_cs rec0 sno l h13 hd hover
    have h13x : (13 : Nat) ≤ l.length := h13
    have e1 : fill_buffer_to ([] : List Nat) l DTLS_HEADER_SIZE =
        (l.take 13, l.drop 13, 0) := by
      have h := fill_take_drop l 0 DTLS_HEADER_SIZE (by omega)
      simp only [List.take_zero, List.drop_zero] at h
      rw [h]
      simp [DTLS_HEADER_SIZE, Nat.sub_eq_zero_of_le h13x]
    simp only [read_dtls_record, List.length_nil, e1]
    norm_num [DTLS_HEADER_SIZE]
    simp only [List.getD_eq_getElem?_getD] at hd hover
    simp only [hd, Bool.true_eq_false, if_false]
    intro _ hle _
    exact absurd hover (Nat.not_lt.mpr hle)
  · intro σ iface get_cs rec0 sno l h13 hd hrs hlen hseen hep hbyte
    have hlen2 : l.length
        = DTLS_HEADER_SIZE + make_uint16 (l.getD 11 0) (l.getD 12 0) := by
      rw [hrs, hlen]
      omega
    refine ⟨?_, by rw [NO_RECORD]; omega⟩
    rw [read_dtls_record_complete iface get_cs rec0 sno l h13 hd
      (by rw [hrs]; exact Nat.zero_le _) hlen2]
    have hrs2 := hrs
    simp only [List.getD_eq_getElem?_getD] at hrs2
    cases sno with
    | none =>
      simp [read_dtls_epilogue, hep, hrs]
      exact Or.inl hrs2
    | some s =>
      have hseen2 : iface.already_seen s (load_be64 (l.drop 3)) = false := by
        simpa using hseen
      simp [read_dtls_epilogue, hseen2, hep, hrs]
      exact Or.inl hrs2

/-- C4 witness: the spec's S3/S4 headers against the TLS reader, an oversize
DTLS datagram dropped, and the zero-size epoch-0 DTLS datagram delivered. -/
theorem C4_record_size_validation_witness :
    read_tls_record streamIface (fun _ => none)
        ⟨[], ⟨0, ⟨0, 0⟩, 0, []⟩, none⟩ [23, 3, 3, 255, 255] =
      (.err (.alert .RECORD_OVERFLOW),
        ⟨[23, 3, 3, 255, 255], ⟨0, ⟨3, 3⟩, 0, []⟩, none⟩) ∧
    read_tls_record streamIface (fun _ => none)
        ⟨[], ⟨0, ⟨0, 0⟩, 0, []⟩, none⟩ [23, 3, 3, 0, 0] =
      (.err (.alert .DECODE_ERROR),
        ⟨[23, 3, 3, 0, 0], ⟨0, ⟨3, 3⟩, 0, []⟩, none⟩) ∧
    read_dtls_record datagramIface (fun _ => none)
        ⟨[], ⟨0, ⟨0, 0⟩, 0, []⟩, some ⟨0, []⟩⟩
        [23, 254, 253, 0, 0, 0, 0, 0, 0, 0, 0, 255, 255] =
      (.ok 0, ⟨[], ⟨NO_RECORD, ⟨254, 253⟩, 0, []⟩, some ⟨0, []⟩⟩) ∧
    read_dtls_record datagramIface (fun _ => none)
        ⟨[], ⟨0, ⟨0, 0⟩, 0, []⟩, some ⟨0, []⟩⟩
        [22, 254, 253, 0, 0, 0, 0, 0, 0, 0, 0, 0, 0] =
      (.ok 0, ⟨[], ⟨22, ⟨254, 253⟩, 0, []⟩, some ⟨0, [0]⟩⟩) := by
  refine ⟨?_, ?_, ?_, ?_⟩
  · have h := C4_record_size_validation.1 streamIface (fun _ => none)
      ⟨0, ⟨0, 0⟩, 0, []⟩ none [23, 3, 3, 255, 255]
      (by decide) (by decide) (by decide)
    exact h.trans (by decide)
  · have h := C4_record_size_validation.2.1 streamIface (fun _ => none)
      ⟨0, ⟨0, 0⟩, 0, []⟩ none [23, 3, 3, 0, 0]
      (by decide) (by decide) (by decide)
    exact h.trans (by decide)
  · have h := C4_record_size_validation.2.2.1 datagramIface (fun _ => none)
      ⟨0, ⟨0, 0⟩, 0, []⟩ (some ⟨0, []⟩)
      [23, 254, 253, 0, 0, 0, 0, 0, 0, 0, 0, 255, 255]
      (by decide) (by decide) (by decide)
    exact h.trans (by decide)
  · have h := C4_record_size_validation.2.2.2 datagramIface (fun _ => none)
      ⟨0, ⟨0, 0⟩, 0, []⟩ (some ⟨0, []⟩)
      [22, 254, 253, 0, 0, 0, 0, 0, 0, 0, 0, 0, 0]
      (by decide) (by decide) (by decide) (by decide) (by decide) (by decide)
      (by decide)
    exact h.1.trans (by decide)

/-- Resuming `read_tls_record` when the buffer already holds the first `i`
bytes of a well-formed record `l` and the input supplies the rest gives the
same epilogue call as parsing `l` from scratch. -/
theorem read_tls_record_resume {σ : Type} (iface : SeqIface σ)
    (get_cs : Nat → Option Connection_Cipher_State) (rcd : Record)
    (sno : Option σ) (l : List Nat) (i : Nat)
    (hi : i ≤ l.length)
    (hnd : (Protocol_Version.mk (l.getD 1 0) (l.getD 2 0)).is_datagram_protocol
      = false)
    (hmax : make_uint16 (l.getD 3 0) (l.getD 4 0) ≤ MAX_CIPHERTEXT_SIZE)
    (h0 : make_uint16 (l.getD 3 0) (l.getD 4 0) ≠ 0)
    (hlen : l.length = TLS_HEADER_SIZE + make_uint16 (l.getD 3 0) (l.getD 4 0)) :
    read_tls_record iface get_cs ⟨l.take i, rcd, sno⟩ (l.drop i) =
      read_tls_epilogue iface get_cs
        { rcd with version := ⟨l.getD 1 0, l.getD 2 0⟩ } sno l
        (make_uint16 (l.getD 3 0) (l.getD 4 0)) := by
  have h5x : (5 : Nat) ≤ l.length := hlen ▸ (by simp [TLS_HEADER_SIZE])
  have hleni : (l.take i).length = i := by
    rw [List.length_take]
    omega
  rcases Nat.lt_or_ge i 5 with hi5 | hi5
  · have e1 : fill_buffer_to (l.take i) (l.drop i) TLS_HEADER_SIZE =
        (l.take 5, l.drop 5, 0) := by
      have h := fill_take_drop l i TLS_HEADER_SIZE
        (by simp only [TLS_HEADER_SIZE]; omega)
      rw [h]
      simp [TLS_HEADER_SIZE, Nat.sub_eq_zero_of_le h5x]
    have e2 : fill_buffer_to (l.take 5) (l.drop 5)
        (TLS_HEADER_SIZE + make_uint16 (l.getD 3 0) (l.getD 4 0)) =
        (l, [], 0) := by
      have h := fill_take_drop l 5
        (TLS_HEADER_SIZE + make_uint16 (l.getD 3 0) (l.getD 4 0))
        (by simp [TLS_HEADER_SIZE])
      rw [h, ← hlen]
      simp
    simp only [read_tls_record, hleni, if_pos (show i < TLS_HEADER_SIZE from hi5),
      e1]
    norm_num [TLS_HEADER_SIZE]
    simp only [List.getD_eq_getElem?_getD] at hnd hmax h0 e2
    simp only [TLS_HEADER_SIZE] at e2
    simp only [hnd, Bool.false_eq_true, if_false, if_neg (Nat.not_lt.mpr hmax),
      if_neg h0, e2]
    simp
  · have gt : ∀ j, j < 5 → (l.take i)[j]? = l[j]? := by
      intro j hj
      rw [List.getElem?_take, if_pos (lt_of_lt_of_le hj hi5)]
    have e2 : fill_buffer_to (l.take i) (l.drop i)
        (TLS_HEADER_SIZE + make_uint16 (l.getD 3 0) (l.getD 4 0)) =
        (l, [], 0) := by
      have h := fill_take_drop l i
        (TLS_HEADER_SIZE + make_uint16 (l.getD 3 0) (l.getD 4 0))
        (by rw [← hlen]; exact hi)
      rw [h, ← hlen]
      simp
    simp only [read_tls_record, hleni,
      if_neg (show ¬i < TLS_HEADER_SIZE by simp [TLS_HEADER_SIZE]; omega)]
    norm_num [TLS_HEADER_SIZE]
    simp only [List.getD_eq_getElem?_getD] at hnd hmax h0 e2
    simp only [TLS_HEADER_SIZE] at e2
    simp only [gt 1 (by norm_num), gt 2 (by norm_num), gt 3 (by norm_num),
      gt 4 (by norm_num), hnd, Bool.false_eq_true, if_false,
      if_neg (Nat.not_lt.mpr hmax), if_neg h0, e2]
    simp

/-- A `read_tls_record` call that gets only a proper prefix of a well-formed
record asks for more bytes (positive hint), buffers exactly the prefix, and
touches neither the sequence state nor the record's payload field. -/
theorem read_tls_record_partial {σ : Type} (iface : SeqIface σ)
    (get_cs : Nat → Option Connection_Cipher_State) (rec0 : Record)
    (sno : Option σ) (l : List Nat) (i : Nat)
    (hi : i < l.length)
    (hnd : (Protocol_Version.mk (l.getD 1 0) (l.getD 2 0)).is_datagram_protocol
      = false)
    (hmax : make_uint16 (l.getD 3 0) (l.getD 4 0) ≤ MAX_CIPHERTEXT_SIZE)
    (h0 : make_uint16 (l.getD 3 0) (l.getD 4 0) ≠ 0)
    (hlen : l.length = TLS_HEADER_SIZE + make_uint16 (l.getD 3 0) (l.getD 4 0)) :
    read_tls_record iface get_cs ⟨[], rec0, sno⟩ (l.take i) =
      (.ok (if i < TLS_HEADER_SIZE then TLS_HEADER_SIZE - i else l.length - i),
        ⟨l.take i,
          if i < TLS_HEADER_SIZE then rec0
          else { rec0 with version := ⟨l.getD 1 0, l.getD 2 0⟩ },
          sno⟩) := by
  have h5x : (5 : Nat) ≤ l.length := hlen ▸ (by simp [TLS_HEADER_SIZE])
  have hleni : (l.take i).length = i := by
    rw [List.length_take]
    omega
  rcases Nat.lt_or_ge i 5 with hi5 | hi5
  · have e1 : fill_buffer_to ([] : List Nat) (l.take i) 5 =
        (l.take i, [], 5 - i) := by
      have h := fill_take_drop (l.take i) 0 TLS_HEADER_SIZE (Nat.zero_le _)
      simp only [List.take_zero, List.drop_zero, TLS_HEADER_SIZE] at h
      rw [h]
      rw [List.take_of_length_le (by rw [hleni]; omega),
        List.drop_eq_nil_of_le (by rw [hleni]; omega), hleni]
    have hpos : ¬(5 - i = 0) := by omega
    simp only [read_tls_record, List.length_nil, TLS_HEADER_SIZE, e1]
    norm_num
    rw [if_neg hpos]
    simp only [if_pos hi5]
  · have e1 : fill_buffer_to ([] : List Nat) (l.take i) 5 =
        ((l.take i).take 5, (l.take i).drop 5, 0) := by
      have h := fill_take_drop (l.take i) 0 TLS_HEADER_SIZE (Nat.zero_le _)
      simp only [List.take_zero, List.drop_zero, TLS_HEADER_SIZE] at h
      rw [h, hleni]
      simp [Nat.sub_eq_zero_of_le hi5]
    have gt : ∀ j, j < 5 → (l.take i)[j]? = l[j]? := by
      intro j hj
      rw [List.getElem?_take, if_pos (lt_of_lt_of_le hj hi5)]
    have e2 : fill_buffer_to ((l.take i).take 5) ((l.take i).drop 5)
        (TLS_HEADER_SIZE + make_uint16 (l.getD 3 0) (l.getD 4 0)) =
        (l.take i, [], l.length - i) := by
      have h := fill_take_drop (l.take i) 5
        (TLS_HEADER_SIZE + make_uint16 (l.getD 3 0) (l.getD 4 0))
        (by simp [TLS_HEADER_SIZE])
      rw [h, hleni]
      rw [List.take_of_length_le (by rw [hleni, ← hlen]; omega),
        List.drop_eq_nil_of_le (by rw [hleni, ← hlen]; omega)]
      rw [← hlen]
    simp only [read_tls_record, List.length_nil, TLS_HEADER_SIZE, e1]
    norm_num
    simp only [List.getD_eq_getElem?_getD] at hnd hmax h0 e2
    simp only [TLS_HEADER_SIZE] at e2
    simp only [gt 1 (by norm_num), gt 2 (by norm_num), gt 3 (by norm_num),
      gt 4 (by norm_num), hnd, Bool.false_eq_true, if_false,
      if_neg (Nat.not_lt.mpr hmax), if_neg h0, e2]
    have hpos : l.length - i ≠ 0 := by omega
    rw [if_neg hpos]
    simp only [if_neg (show ¬i < 5 from Nat.not_lt.mpr hi5)]

/-- C9: splitting a complete well-formed TLS record at any boundary and
feeding the two pieces to successive `read_tls_record` calls makes the first
call return a positive needed-bytes hint and the second call return exactly
what a single call on the whole record returns (same outcome, record, buffer
and sequence state). -/
theorem C9_incremental_parse {σ : Type} (iface : SeqIface σ)
    (get_cs : Nat → Option Connection_Cipher_State) (rec0 : Record)
    (sno : Option σ) (l : List Nat) (i : Nat)
    (hi : i < l.length)
    (hnd : (Protocol_Version.mk (l.getD 1 0) (l.getD 2 0)).is_datagram_protocol
      = false)
    (hmax : make_uint16 (l.getD 3 0) (l.getD 4 0) ≤ MAX_CIPHERTEXT_SIZE)
    (h0 : make_uint16 (l.getD 3 0) (l.getD 4 0) ≠ 0)
    (hlen : l.length = TLS_HEADER_SIZE + make_uint16 (l.getD 3 0) (l.getD 4 0)) :
    (∃ k, 0 < k ∧
      (read_tls_record iface get_cs ⟨[], rec0, sno⟩ (l.take i)).1 = .ok k) ∧
    read_tls_record iface get_cs
        (read_tls_record iface get_cs ⟨[], rec0, sno⟩ (l.take i)).2 (l.drop i)
      = read_tls_record iface get_cs ⟨[], rec0, sno⟩ l := by
  have hp := read_tls_record_partial iface get_cs rec0 sno l i hi hnd hmax h0 hlen
  constructor
  · refine ⟨if i < TLS_HEADER_SIZE then TLS_HEADER_SIZE - i else l.length - i,
      ?_, ?_⟩
    · rcases Nat.lt_or_ge i TLS_HEADER_SIZE with h | h
      · rw [if_pos h]
        simp only [TLS_HEADER_SIZE] at h ⊢
        omega
      · rw [if_neg (Nat.not_lt.mpr h)]
        omega
    · rw [hp]
  · rw [hp]
    rw [read_tls_record_complete iface get_cs rec0 sno l
      (hlen ▸ (by simp [TLS_HEADER_SIZE])) hnd hmax h0 hlen]
    rcases Nat.lt_or_ge i TLS_HEADER_SIZE with h | h
    · simp only [if_pos h]
      exact read_tls_record_resume iface get_cs rec0 sno l i (by omega)
        hnd hmax h0 hlen
    · simp only [if_neg (Nat.not_lt.mpr h)]
      exact read_tls_record_resume iface get_cs
        { rec0 with version := ⟨l.getD 1 0, l.getD 2 0⟩ } sno l i (by omega)
        hnd hmax h0 hlen

theorem make_uint16_div_mod (n : Nat) :
    make_uint16 (n / 256) (n % 256) = n := by
  simp only [make_uint16]
  omega

theorem load_be64_be64 (seq : Nat) (rest : List Nat) (h : seq < 2 ^ 64) :
    load_be64 (be64 seq ++ rest) = seq := by
  simp only [be64, load_be64, List.cons_append, List.nil_append]
  simp only [List.getD_cons_zero, List.getD_cons_succ]
  omega

theorem format_ad_mod_type (seq ty : Nat) (ver : Protocol_Version) (len : Nat) :
    Connection_Cipher_State.format_ad seq (ty % 256) ver len
      = Connection_Cipher_State.format_ad seq ty ver len := by
  simp [Connection_Cipher_State.format_ad, Nat.mod_mod_of_dvd ty dvd_rfl]

theorem decrypt_record_eq (body : List Nat) (seq : Nat)
    (ver : Protocol_Version) (ty : Nat) (cs : Connection_Cipher_State)
    (nonce p : List Nat)
    (hnonce : cs.aead_nonce_r body body.length seq = .ok nonce)
    (hguard : cs.aead.minimum_final_size
      ≤ body.length - cs.nonce_bytes_from_record)
    (hproc : cs.aead.proc nonce
        (Connection_Cipher_State.format_ad seq (ty % 256) ver
          (cs.aead.output_length (body.length - cs.nonce_bytes_from_record)))
        (body.drop cs.nonce_bytes_from_record) = some p) :
    decrypt_record body seq ver ty cs = .ok p := by
  simp only [decrypt_record, hnonce, recerr_bind_ok,
    if_neg (Nat.not_lt.mpr hguard), hproc]
  rfl

/-- `read_tls_record` on a full well-formed record for a non-zero epoch whose
decryption succeeds: the plaintext is delivered and `read_accept` is called. -/
theorem read_tls_record_encrypted {σ : Type} (iface : SeqIface σ)
    (get_cs : Nat → Option Connection_Cipher_State) (rec0 : Record) (s : σ)
    (l : List Nat) (cs : Connection_Cipher_State) (ptext : List Nat)
    (h5 : TLS_HEADER_SIZE ≤ l.length)
    (hnd : (Protocol_Version.mk (l.getD 1 0) (l.getD 2 0)).is_datagram_protocol
      = false)
    (hmax : make_uint16 (l.getD 3 0) (l.getD 4 0) ≤ MAX_CIPHERTEXT_SIZE)
    (h0 : make_uint16 (l.getD 3 0) (l.getD 4 0) ≠ 0)
    (hlen : l.length = TLS_HEADER_SIZE + make_uint16 (l.getD 3 0) (l.getD 4 0))
    (hep : iface.current_read_epoch s ≠ 0)
    (hcs : get_cs (iface.current_read_epoch s) = some cs)
    (hdec : decrypt_record
        ((l.drop TLS_HEADER_SIZE).take (make_uint16 (l.getD 3 0) (l.getD 4 0)))
        (iface.next_read_sequence s) ⟨l.getD 1 0, l.getD 2 0⟩ (l.getD 0 0) cs
      = .ok ptext) :
    read_tls_record iface get_cs ⟨[], rec0, some s⟩ l =
      (.ok 0, ⟨[], ⟨l.getD 0 0, ⟨l.getD 1 0, l.getD 2 0⟩,
        iface.next_read_sequence s, rec0.data ++ ptext⟩,
        some (iface.read_accept s (iface.next_read_sequence s))⟩) := by
  rw [read_tls_record_complete iface get_cs rec0 (some s) l h5 hnd hmax h0 hlen]
  simp only [read_tls_epilogue, TLS_HEADER_SIZE, List.getD_eq_getElem?_getD]
    at hdec ⊢
  simp [hep, hcs, hdec]

/-- `read_dtls_record` on a full well-formed datagram for a non-zero epoch,
not replayed, whose decryption succeeds: the plaintext is delivered and
`read_accept` marks the sequence. -/
theorem read_dtls_record_encrypted {σ : Type} (iface : SeqIface σ)
    (get_cs : Nat → Option Connection_Cipher_State) (rec0 : Record) (s : σ)
    (l : List Nat) (cs : Connection_Cipher_State) (ptext : List Nat)
    (h13 : DTLS_HEADER_SIZE ≤ l.length)
    (hd : (Protocol_Version.mk (l.getD 1 0) (l.getD 2 0)).is_datagram_protocol
      = true)
    (hmax : make_uint16 (l.getD 11 0) (l.getD 12 0) ≤ MAX_CIPHERTEXT_SIZE)
    (hlen : l.length
      = DTLS_HEADER_SIZE + make_uint16 (l.getD 11 0) (l.getD 12 0))
    (hseen : iface.already_seen s (load_be64 (l.drop 3)) = false)
    (hep : load_be64 (l.drop 3) >>> 48 ≠ 0)
    (hcs : get_cs (load_be64 (l.drop 3) >>> 48) = some cs)
    (hdec : decrypt_record
        ((l.drop DTLS_HEADER_SIZE).take
          (make_uint16 (l.getD 11 0) (l.getD 12 0)))
        (load_be64 (l.drop 3)) ⟨l.getD 1 0, l.getD 2 0⟩ (l.getD 0 0) cs
      = .ok ptext) :
    read_dtls_record iface get_cs ⟨[], rec0, some s⟩ l =
      (.ok 0, ⟨[], ⟨l.getD 0 0, ⟨l.getD 1 0, l.getD 2 0⟩,
        load_be64 (l.drop 3), rec0.data ++ ptext⟩,
        some (iface.read_accept s (load_be64 (l.drop 3)))⟩) := by
  rw [read_dtls_record_complete iface get_cs rec0 (some s) l h13 hd hmax hlen]
  simp only [read_dtls_epilogue, DTLS_HEADER_SIZE, List.getD_eq_getElem?_getD]
    at hdec ⊢
  simp [hseen, hep, hcs, hdec]

/-- The byte string `write_record` produces when the nonce derivation, the
length assertion, the AEAD and the final size assertion all go through. -/
theorem write_record_shape (ty : Nat) (msg : List Nat)
    (ver : Protocol_Version) (seq : Nat) (cs : Connection_Cipher_State)
    (rng nW ctext : List Nat) (cs2 : Connection_Cipher_State)
    (hnw : cs.aead_nonce_w seq rng = .ok (nW, cs2))
    (hct : cs.aead.proc nW
        (Connection_Cipher_State.format_ad seq ty ver msg.length) msg
      = some ctext)
    (h16 : cs.aead.output_length msg.length + cs.nonce_bytes_from_record
      < 65536)
    (hout : ((ty :: ver.major :: ver.minor ::
        (if ver.is_datagram_protocol then be64 seq else [])) ++
        [(cs.aead.output_length msg.length + cs.nonce_bytes_from_record) / 256,
         (cs.aead.output_length msg.length + cs.nonce_bytes_from_record) % 256]
        ++ (if cs.nonce_bytes_from_record > 0 then
              if cs.nonce_format = .CBC_MODE then nW
              else (nW.drop cs.nonce_bytes_from_handshake).take
                cs.nonce_bytes_from_record
            else []) ++ ctext).length < MAX_CIPHERTEXT_SIZE) :
    write_record ty msg ver seq (some cs) rng =
      .ok ((ty :: ver.major :: ver.minor ::
        (if ver.is_datagram_protocol then be64 seq else [])) ++
        [(cs.aead.output_length msg.length + cs.nonce_bytes_from_record) / 256,
         (cs.aead.output_length msg.length + cs.nonce_bytes_from_record) % 256]
        ++ (if cs.nonce_bytes_from_record > 0 then
              if cs.nonce_format = .CBC_MODE then nW
              else (nW.drop cs.nonce_bytes_from_handshake).take
                cs.nonce_bytes_from_record
            else []) ++ ctext, some cs2) := by
  simp only [write_record, hnw, recerr_bind_ok, append_u16_len, if_pos h16,
    hct, Option.getD_some, if_pos hout]
  rfl

theorem aead_nonce_w_cbc (cs : Connection_Cipher_State) (seq : Nat)
    (rng : List Nat) (hf : cs.nonce_format = .CBC_MODE) :
    cs.aead_nonce_w seq rng =
      if cs.nonce ≠ [] then .ok (cs.nonce, { cs with nonce := [] })
      else .ok (rng.take cs.nonce_bytes_from_record, cs) := by
  unfold Connection_Cipher_State.aead_nonce_w
  rw [hf]

theorem aead_nonce_w_xor12 (cs : Connection_Cipher_State) (seq : Nat)
    (rng : List Nat) (hf : cs.nonce_format = .AEAD_XOR_12) :
    cs.aead_nonce_w seq rng =
      .ok (xor_buf (List.replicate 4 0 ++ be64 seq) cs.nonce, cs) := by
  unfold Connection_Cipher_State.aead_nonce_w
  rw [hf]

theorem aead_nonce_w_implicit4 (cs : Connection_Cipher_State) (seq : Nat)
    (rng : List Nat) (hf : cs.nonce_format = .AEAD_IMPLICIT_4) :
    cs.aead_nonce_w seq rng =
      if cs.nonce.length ≠ 4 then .error .internal_error
      else .ok (listStore (listStore (List.replicate 12 0) 0 (cs.nonce.take 4))
        cs.nonce_bytes_from_handshake (be64 seq), cs) := by
  unfold Connection_Cipher_State.aead_nonce_w
  rw [hf]

theorem aead_nonce_r_cbc (cs : Connection_Cipher_State) (record : List Nat)
    (record_len seq : Nat) (hf : cs.nonce_format = .CBC_MODE) :
    cs.aead_nonce_r record record_len seq =
      if record_len < cs.nonce_bytes_from_record then .error .decoding_error
      else .ok (record.take cs.nonce_bytes_from_record) := by
  unfold Connection_Cipher_State.aead_nonce_r
  rw [hf]

theorem aead_nonce_r_xor12 (cs : Connection_Cipher_State) (record : List Nat)
    (record_len seq : Nat) (hf : cs.nonce_format = .AEAD_XOR_12) :
    cs.aead_nonce_r record record_len seq =
      .ok (xor_buf (List.replicate 4 0 ++ be64 seq) cs.nonce) := by
  unfold Connection_Cipher_State.aead_nonce_r
  rw [hf]

theorem aead_nonce_r_implicit4 (cs : Connection_Cipher_State)
    (record : List Nat) (record_len seq : Nat)
    (hf : cs.nonce_format = .AEAD_IMPLICIT_4) :
    cs.aead_nonce_r record record_len seq =
      if cs.nonce.length ≠ 4 then .error .internal_error
      else if record_len < cs.nonce_bytes_from_record then
        .error .decoding_error
      else .ok (listStore (listStore (List.replicate 12 0) 0 (cs.nonce.take 4))
        cs.nonce_bytes_from_handshake
        (record.take cs.nonce_bytes_from_record)) := by
  unfold Connection_Cipher_State.aead_nonce_r
  rw [hf]

/-- For matching cipher states, the write-side nonce derivation succeeds, the
explicit nonce bytes the writer puts on the wire have exactly
`nonce_bytes_from_record` bytes, and the read-side derivation recovers the
very same nonce from them. -/
theorem nonce_roundtrip_key (cs_w cs_r : Connection_Cipher_State)
    (rng : List Nat)
    (hfmt : cs_r.nonce_format = cs_w.nonce_format)
    (hfr : cs_r.nonce_bytes_from_record = cs_w.nonce_bytes_from_record)
    (hfh : cs_r.nonce_bytes_from_handshake = cs_w.nonce_bytes_from_handshake)
    (himp : cs_r.nonce = cs_w.nonce)
    (hx12 : cs_w.nonce_format = .AEAD_XOR_12 →
      cs_w.nonce_bytes_from_record = 0)
    (hi4 : cs_w.nonce_format = .AEAD_IMPLICIT_4 →
      cs_w.nonce.length = 4 ∧ cs_w.nonce_bytes_from_handshake = 4 ∧
        cs_w.nonce_bytes_from_record = 8)
    (hcbc : cs_w.nonce_format = .CBC_MODE →
      (cs_w.nonce ≠ [] →
        cs_w.nonce.length = cs_w.nonce_bytes_from_record) ∧
      (cs_w.nonce = [] → cs_w.nonce_bytes_from_record ≤ rng.length))
    (seq : Nat) :
    ∃ nW cs2,
      cs_w.aead_nonce_w seq rng = .ok (nW, cs2) ∧
      (if cs_w.nonce_bytes_from_record > 0 then
          if cs_w.nonce_format = .CBC_MODE then nW
          else (nW.drop cs_w.nonce_bytes_from_handshake).take
            cs_w.nonce_bytes_from_record
        else []).length = cs_w.nonce_bytes_from_record ∧
      ∀ ctext : List Nat,
        cs_r.aead_nonce_r
            ((if cs_w.nonce_bytes_from_record > 0 then
                if cs_w.nonce_format = .CBC_MODE then nW
                else (nW.drop cs_w.nonce_bytes_from_handshake).take
                  cs_w.nonce_bytes_from_record
              else []) ++ ctext)
            ((if cs_w.nonce_bytes_from_record > 0 then
                if cs_w.nonce_format = .CBC_MODE then nW
                else (nW.drop cs_w.nonce_bytes_from_handshake).take
                  cs_w.nonce_bytes_from_record
              else []) ++ ctext).length seq = .ok nW := by
  have hbe : (be64 seq).length = 8 := by simp [be64]
  cases hf : cs_w.nonce_format with
  | AEAD_XOR_12 =>
    refine ⟨xor_buf (List.replicate 4 0 ++ be64 seq) cs_w.nonce, cs_w,
      aead_nonce_w_xor12 cs_w seq rng hf, ?_, ?_⟩
    · rw [hx12 hf]
      simp
    · intro ctext
      rw [aead_nonce_r_xor12 cs_r _ _ seq (hfmt.trans hf), himp]
  | AEAD_IMPLICIT_4 =>
    obtain ⟨h4, hh4, hr8⟩ := hi4 hf
    have inner : listStore (List.replicate 12 0) 0 (cs_w.nonce.take 4)
        = cs_w.nonce ++ List.replicate 8 0 := by
      rw [List.take_of_length_le (le_of_eq h4)]
      simp only [listStore, List.take_zero, List.nil_append, h4,
        List.drop_replicate]
    have hnW : ∀ v : List Nat, v.length = 8 →
        listStore (listStore (List.replicate 12 0) 0 (cs_w.nonce.take 4))
          cs_w.nonce_bytes_from_handshake v = cs_w.nonce ++ v := by
      intro v hv
      rw [inner, hh4]
      simp only [listStore, hv]
      rw [List.take_append_of_le_length (le_of_eq h4.symm),
        List.take_of_length_le (le_of_eq h4)]
      rw [List.drop_eq_nil_of_le (by simp [h4])]
      simp
    have hE : (if cs_w.nonce_bytes_from_record > 0 then
        if Nonce_Format.AEAD_IMPLICIT_4 = Nonce_Format.CBC_MODE then
          cs_w.nonce ++ be64 seq
        else ((cs_w.nonce ++ be64 seq).drop
          cs_w.nonce_bytes_from_handshake).take cs_w.nonce_bytes_from_record
      else []) = be64 seq := by
      rw [if_pos (by rw [hr8]; norm_num), if_neg (by simp), hh4, ← h4,
        List.drop_left, hr8, List.take_of_length_le (le_of_eq hbe)]
    refine ⟨cs_w.nonce ++ be64 seq, cs_w, ?_, ?_, ?_⟩
    · rw [aead_nonce_w_implicit4 cs_w seq rng hf, if_neg (by rw [h4]; simp),
        hnW (be64 seq) hbe]
    · rw [hE, hbe, hr8]
    · intro ctext
      rw [hE]
      rw [aead_nonce_r_implicit4 cs_r _ _ seq (hfmt.trans hf)]
      rw [if_neg (by rw [himp, h4]; simp)]
      rw [if_neg (by
        rw [hfr, hr8]
        simp only [List.length_append, hbe, Nat.not_lt]
        omega)]
      rw [himp, hfh, hfr, hr8,
        List.take_append_of_le_length (le_of_eq hbe.symm),
        List.take_of_length_le (le_of_eq hbe), hnW (be64 seq) hbe]
  | CBC_MODE =>
    have main : ∀ nW : List Nat,
        nW.length = cs_w.nonce_bytes_from_record →
        ((if cs_w.nonce_bytes_from_record > 0 then
            if Nonce_Format.CBC_MODE = Nonce_Format.CBC_MODE then nW
            else (nW.drop cs_w.nonce_bytes_from_handshake).take
              cs_w.nonce_bytes_from_record
          else []).length = cs_w.nonce_bytes_from_record ∧
        ∀ ctext : List Nat,
          cs_r.aead_nonce_r
              ((if cs_w.nonce_bytes_from_record > 0 then
                  if Nonce_Format.CBC_MODE = Nonce_Format.CBC_MODE then nW
                  else (nW.drop cs_w.nonce_bytes_from_handshake).take
                    cs_w.nonce_bytes_from_record
                else []) ++ ctext)
              ((if cs_w.nonce_bytes_from_record > 0 then
                  if Nonce_Format.CBC_MODE = Nonce_Format.CBC_MODE then nW
                  else (nW.drop cs_w.nonce_bytes_from_handshake).take
                    cs_w.nonce_bytes_from_record
                else []) ++ ctext).length seq = .ok nW) := by
      intro nW hlW
      have hEeq : (if cs_w.nonce_bytes_from_record > 0 then
          if Nonce_Format.CBC_MODE = Nonce_Format.CBC_MODE then nW
          else (nW.drop cs_w.nonce_bytes_from_handshake).take
            cs_w.nonce_bytes_from_record
        else []) = nW := by
        rcases Nat.eq_zero_or_pos cs_w.nonce_bytes_from_record with h0 | h0
        · rw [if_neg (by omega)]
          exact (List.eq_nil_of_length_eq_zero (by rw [hlW, h0])).symm
        · rw [if_pos h0, if_pos rfl]
      refine ⟨by rw [hEeq, hlW], ?_⟩
      intro ctext
      rw [hEeq]
      rw [aead_nonce_r_cbc cs_r _ _ seq (hfmt.trans hf)]
      rw [if_neg (by
        rw [hfr, ← hlW]
        simp only [List.length_append, Nat.not_lt]
        omega)]
      rw [hfr, ← hlW, List.take_left]
    by_cases hne : cs_w.nonce = []
    · have hlW : (rng.take cs_w.nonce_bytes_from_record).length
          = cs_w.nonce_bytes_from_record := by
        rw [List.length_take]
        have := (hcbc hf).2 hne
        omega
      obtain ⟨hEl, hEr⟩ := main _ hlW
      exact ⟨rng.take cs_w.nonce_bytes_from_record, cs_w,
        by rw [aead_nonce_w_cbc cs_w seq rng hf, if_neg (by simp [hne])],
        hEl, hEr⟩
    · have hlW : cs_w.nonce.length = cs_w.nonce_bytes_from_record :=
        (hcbc hf).1 hne
      obtain ⟨hEl, hEr⟩ := main _ hlW
      exact ⟨cs_w.nonce, { cs_w with nonce := [] },
        by rw [aead_nonce_w_cbc cs_w seq rng hf, if_pos hne], hEl, hEr⟩

/-- One TLS-mode round trip, abstracted over the format-specific nonce facts:
the writer frames and encrypts, the reader delivers exactly the original
type, version, sequence and payload and accepts the sequence. -/
theorem roundtrip_tls_mode {σ : Type} (iface : SeqIface σ)
    (get_cs : Nat → Option Connection_Cipher_State) (rec0 : Record) (s : σ)
    (seq : Nat) (cs_w cs_r cs2 : Connection_Cipher_State)
    (rng : List Nat) (ty : Nat) (ver : Protocol_Version)
    (msg nW E ctext : List Nat)
    (hver : ver.is_datagram_protocol = false)
    (hdata : rec0.data = [])
    (hnw : cs_w.aead_nonce_w seq rng = .ok (nW, cs2))
    (hEdef : E = (if cs_w.nonce_bytes_from_record > 0 then
        if cs_w.nonce_format = .CBC_MODE then nW
        else (nW.drop cs_w.nonce_bytes_from_handshake).take
          cs_w.nonce_bytes_from_record
      else []))
    (hElen : E.length = cs_w.nonce_bytes_from_record)
    (hnr : cs_r.aead_nonce_r (E ++ ctext) (E ++ ctext).length seq = .ok nW)
    (hfr : cs_r.nonce_bytes_from_record = cs_w.nonce_bytes_from_record)
    (hct : cs_w.aead.proc nW
      (Connection_Cipher_State.format_ad seq ty ver msg.length) msg
      = some ctext)
    (hctlen : ctext.length = cs_w.aead.output_length msg.length)
    (hexp : cs_w.aead.output_length msg.length ≤ msg.length + 1024)
    (hlenm : msg.length ≤ 2 ^ 14)
    (hfrb : cs_w.nonce_bytes_from_record ≤ 1000)
    (hpos : 0 < cs_w.aead.output_length msg.length)
    (hinv : cs_r.aead.output_length (cs_w.aead.output_length msg.length)
      = msg.length)
    (hmf : cs_r.aead.minimum_final_size ≤ cs_w.aead.output_length msg.length)
    (hdec2 : cs_r.aead.proc nW
      (Connection_Cipher_State.format_ad seq ty ver msg.length) ctext
      = some msg)
    (hseq : iface.next_read_sequence s = seq)
    (hep : iface.current_read_epoch s ≠ 0)
    (hcs : get_cs (iface.current_read_epoch s) = some cs_r) :
    ∃ buf,
      write_record ty msg ver seq (some cs_w) rng = .ok (buf, some cs2) ∧
      read_tls_record iface get_cs ⟨[], rec0, some s⟩ buf =
        (.ok 0, ⟨[], ⟨ty, ver, seq, msg⟩, some (iface.read_accept s seq)⟩) := by
  have hM : MAX_CIPHERTEXT_SIZE = 18432 := by norm_num [MAX_CIPHERTEXT_SIZE]
  have h214 : (2 : Nat) ^ 14 = 16384 := by norm_num
  rw [h214] at hlenm
  have h16 : cs_w.aead.output_length msg.length + cs_w.nonce_bytes_from_record
      < 65536 := by omega
  have hbufeq : (ty :: ver.major :: ver.minor ::
        (if ver.is_datagram_protocol then be64 seq else [])) ++
      [(cs_w.aead.output_length msg.length + cs_w.nonce_bytes_from_record) / 256,
       (cs_w.aead.output_length msg.length + cs_w.nonce_bytes_from_record) % 256]
      ++ (if cs_w.nonce_bytes_from_record > 0 then
            if cs_w.nonce_format = .CBC_MODE then nW
            else (nW.drop cs_w.nonce_bytes_from_handshake).take
              cs_w.nonce_bytes_from_record
          else []) ++ ctext
      = ty :: ver.major :: ver.minor ::
        ((cs_w.aead.output_length msg.length + cs_w.nonce_bytes_from_record)
          / 256) ::
        ((cs_w.aead.output_length msg.length + cs_w.nonce_bytes_from_record)
          % 256) :: (E ++ ctext) := by
    rw [hver, ← hEdef]
    simp
  have hout : ((ty :: ver.major :: ver.minor ::
        (if ver.is_datagram_protocol then be64 seq else [])) ++
      [(cs_w.aead.output_length msg.length + cs_w.nonce_bytes_from_record) / 256,
       (cs_w.aead.output_length msg.length + cs_w.nonce_bytes_from_record) % 256]
      ++ (if cs_w.nonce_bytes_from_record > 0 then
            if cs_w.nonce_format = .CBC_MODE then nW
            else (nW.drop cs_w.nonce_bytes_from_handshake).take
              cs_w.nonce_bytes_from_record
          else []) ++ ctext).length < MAX_CIPHERTEXT_SIZE := by
    rw [hbufeq, hM]
    simp only [List.length_cons, List.length_append, hElen, hctlen]
    omega
  have hw := write_record_shape ty msg ver seq cs_w rng nW ctext cs2 hnw hct
    h16 hout
  rw [hbufeq] at hw
  refine ⟨_, hw, ?_⟩
  have hlenbuf : (ty :: ver.major :: ver.minor ::
      ((cs_w.aead.output_length msg.length + cs_w.nonce_bytes_from_record)
        / 256) ::
      ((cs_w.aead.output_length msg.length + cs_w.nonce_bytes_from_record)
        % 256) :: (E ++ ctext)).length
      = 5 + (cs_w.aead.output_length msg.length
        + cs_w.nonce_bytes_from_record) := by
    simp only [List.length_cons, List.length_append, hElen, hctlen]
    omega
  have hmk : make_uint16
      ((ty :: ver.major :: ver.minor ::
        ((cs_w.aead.output_length msg.length + cs_w.nonce_bytes_from_record)
          / 256) ::
        ((cs_w.aead.output_length msg.length + cs_w.nonce_bytes_from_record)
          % 256) :: (E ++ ctext)).getD 3 0)
      ((ty :: ver.major :: ver.minor ::
        ((cs_w.aead.output_length msg.length + cs_w.nonce_bytes_from_record)
          / 256) ::
        ((cs_w.aead.output_length msg.length + cs_w.nonce_bytes_from_record)
          % 256) :: (E ++ ctext)).getD 4 0)
      = cs_w.aead.output_length msg.length + cs_w.nonce_bytes_from_record :=
    make_uint16_div_mod _
  have hbody : ((ty :: ver.major :: ver.minor ::
      ((cs_w.aead.output_length msg.length + cs_w.nonce_bytes_from_record)
        / 256) ::
      ((cs_w.aead.output_length msg.length + cs_w.nonce_bytes_from_record)
        % 256) :: (E ++ ctext)).drop TLS_HEADER_SIZE).take
      (cs_w.aead.output_length msg.length + cs_w.nonce_bytes_from_record)
      = E ++ ctext := by
    show (E ++ ctext).take _ = E ++ ctext
    exact List.take_of_length_le
      (by simp only [List.length_append, hElen, hctlen]; omega)
  have hguard : cs_r.aead.minimum_final_size
      ≤ (E ++ ctext).length - cs_r.nonce_bytes_from_record := by
    simp only [List.length_append, hElen, hctlen, hfr]
    omega
  have hproc : cs_r.aead.proc nW
      (Connection_Cipher_State.format_ad seq (ty % 256) ver
        (cs_r.aead.output_length
          ((E ++ ctext).length - cs_r.nonce_bytes_from_record)))
      ((E ++ ctext).drop cs_r.nonce_bytes_from_record) = some msg := by
    have hdrop : (E ++ ctext).drop cs_r.nonce_bytes_from_record = ctext := by
      rw [hfr, ← hElen]
      exact List.drop_left E ctext
    have harg : (E ++ ctext).length - cs_r.nonce_bytes_from_record
        = ctext.length := by
      simp only [List.length_append, hElen, hfr]
      omega
    rw [hdrop, harg, hctlen, hinv, format_ad_mod_type]
    exact hdec2
  have hdecfull : decrypt_record (E ++ ctext) seq ver ty cs_r = .ok msg :=
    decrypt_record_eq (E ++ ctext) seq ver ty cs_r nW msg hnr hguard hproc
  have hr := read_tls_record_encrypted iface get_cs rec0 s
    (ty :: ver.major :: ver.minor ::
      ((cs_w.aead.output_length msg.length + cs_w.nonce_bytes_from_record)
        / 256) ::
      ((cs_w.aead.output_length msg.length + cs_w.nonce_bytes_from_record)
        % 256) :: (E ++ ctext)) cs_r msg
    (by rw [hlenbuf]; simp [TLS_HEADER_SIZE])
    hver
    (by rw [hmk, hM]; omega)
    (by rw [hmk]; omega)
    (by rw [hmk, hlenbuf]; simp [TLS_HEADER_SIZE])
    hep hcs
    (by rw [hmk, hbody, hseq]; exact hdecfull)
  rw [hr, hseq, hdata]
  rfl

/-- One DTLS-mode round trip, abstracted over the format-specific nonce
facts: the writer frames (sequence on the wire) and encrypts, the reader
parses the wire sequence back, delivers the original type, version, sequence
and payload, and marks the sequence accepted. -/
theorem roundtrip_dtls_mode {σ : Type} (iface : SeqIface σ)
    (get_cs : Nat → Option Connection_Cipher_State) (rec0 : Record) (s : σ)
    (seq : Nat) (cs_w cs_r cs2 : Connection_Cipher_State)
    (rng : List Nat) (ty : Nat) (ver : Protocol_Version)
    (msg nW E ctext : List Nat)
    (hver : ver.is_datagram_protocol = true)
    (hdata : rec0.data = [])
    (hnw : cs_w.aead_nonce_w seq rng = .ok (nW, cs2))
    (hEdef : E = (if cs_w.nonce_bytes_from_record > 0 then
        if cs_w.nonce_format = .CBC_MODE then nW
        else (nW.drop cs_w.nonce_bytes_from_handshake).take
          cs_w.nonce_bytes_from_record
      else []))
    (hElen : E.length = cs_w.nonce_bytes_from_record)
    (hnr : cs_r.aead_nonce_r (E ++ ctext) (E ++ ctext).length seq = .ok nW)
    (hfr : cs_r.nonce_bytes_from_record = cs_w.nonce_bytes_from_record)
    (hct : cs_w.aead.proc nW
      (Connection_Cipher_State.format_ad seq ty ver msg.length) msg
      = some ctext)
    (hctlen : ctext.length = cs_w.aead.output_length msg.length)
    (hexp : cs_w.aead.output_length msg.length ≤ msg.length + 1024)
    (hlenm : msg.length ≤ 2 ^ 14)
    (hfrb : cs_w.nonce_bytes_from_record ≤ 1000)
    (hpos : 0 < cs_w.aead.output_length msg.length)
    (hinv : cs_r.aead.output_length (cs_w.aead.output_length msg.length)
      = msg.length)
    (hmf : cs_r.aead.minimum_final_size ≤ cs_w.aead.output_length msg.length)
    (hdec2 : cs_r.aead.proc nW
      (Connection_Cipher_State.format_ad seq ty ver msg.length) ctext
      = some msg)
    (hseq64 : seq < 2 ^ 64)
    (hseen : iface.already_seen s seq = false)
    (hep : seq >>> 48 ≠ 0)
    (hcs : get_cs (seq >>> 48) = some cs_r) :
    ∃ buf,
      write_record ty msg ver seq (some cs_w) rng = .ok (buf, some cs2) ∧
      read_dtls_record iface get_cs ⟨[], rec0, some s⟩ buf =
        (.ok 0, ⟨[], ⟨ty, ver, seq, msg⟩, some (iface.read_accept s seq)⟩) := by
  have hM : MAX_CIPHERTEXT_SIZE = 18432 := by norm_num [MAX_CIPHERTEXT_SIZE]
  have h214 : (2 : Nat) ^ 14 = 16384 := by norm_num
  rw [h214] at hlenm
  have hbe : (be64 seq).length = 8 := by simp [be64]
  have h16 : cs_w.aead.output_length msg.length + cs_w.nonce_bytes_from_record
      < 65536 := by omega
  have hbufeq : (ty :: ver.major :: ver.minor ::
        (if ver.is_datagram_protocol then be64 seq else [])) ++
      [(cs_w.aead.output_length msg.length + cs_w.nonce_bytes_from_record) / 256,
       (cs_w.aead.output_length msg.length + cs_w.nonce_bytes_from_record) % 256]
      ++ (if cs_w.nonce_bytes_from_record > 0 then
            if cs_w.nonce_format = .CBC_MODE then nW
            else (nW.drop cs_w.nonce_bytes_from_handshake).take
              cs_w.nonce_bytes_from_record
          else []) ++ ctext
      = ty :: ver.major :: ver.minor :: (be64 seq ++
        ((cs_w.aead.output_length msg.length + cs_w.nonce_bytes_from_record)
          / 256) ::
        ((cs_w.aead.output_length msg.length + cs_w.nonce_bytes_from_record)
          % 256) :: (E ++ ctext)) := by
    rw [hver, ← hEdef]
    simp
  have hout : ((ty :: ver.major :: ver.minor ::
        (if ver.is_datagram_protocol then be64 seq else [])) ++
      [(cs_w.aead.output_length msg.length + cs_w.nonce_bytes_from_record) / 256,
       (cs_w.aead.output_length msg.length + cs_w.nonce_bytes_from_record) % 256]
      ++ (if cs_w.nonce_bytes_from_record > 0 then
            if cs_w.nonce_format = .CBC_MODE then nW
            else (nW.drop cs_w.nonce_bytes_from_handshake).take
              cs_w.nonce_bytes_from_record
          else []) ++ ctext).length < MAX_CIPHERTEXT_SIZE := by
    rw [hbufeq, hM]
    simp only [List.length_cons, List.length_append, hElen, hctlen, hbe]
    omega
  have hw := write_record_shape ty msg ver seq cs_w rng nW ctext cs2 hnw hct
    h16 hout
  rw [hbufeq] at hw
  refine ⟨_, hw, ?_⟩
  have hlenbuf : (ty :: ver.major :: ver.minor :: (be64 seq ++
      ((cs_w.aead.output_length msg.length + cs_w.nonce_bytes_from_record)
        / 256) ::
      ((cs_w.aead.output_length msg.length + cs_w.nonce_bytes_from_record)
        % 256) :: (E ++ ctext))).length
      = 13 + (cs_w.aead.output_length msg.length
        + cs_w.nonce_bytes_from_record) := by
    simp only [List.length_cons, List.length_append, hElen, hctlen, hbe]
    omega
  have hg11 : (ty :: ver.major :: ver.minor :: (be64 seq ++
      ((cs_w.aead.output_length msg.length + cs_w.nonce_bytes_from_record)
        / 256) ::
      ((cs_w.aead.output_length msg.length + cs_w.nonce_bytes_from_record)
        % 256) :: (E ++ ctext))).getD 11 0
      = (cs_w.aead.output_length msg.length + cs_w.nonce_bytes_from_record)
        / 256 := by
    simp [be64, List.getD_cons_succ, List.getD_cons_zero]
  have hg12 : (ty :: ver.major :: ver.minor :: (be64 seq ++
      ((cs_w.aead.output_length msg.length + cs_w.nonce_bytes_from_record)
        / 256) ::
      ((cs_w.aead.output_length msg.length + cs_w.nonce_bytes_from_record)
        % 256) :: (E ++ ctext))).getD 12 0
      = (cs_w.aead.output_length msg.length + cs_w.nonce_bytes_from_record)
        % 256 := by
    simp [be64, List.getD_cons_succ, List.getD_cons_zero]
  have hmk : make_uint16
      ((ty :: ver.major :: ver.minor :: (be64 seq ++
        ((cs_w.aead.output_length msg.length + cs_w.nonce_bytes_from_record)
          / 256) ::
        ((cs_w.aead.output_length msg.length + cs_w.nonce_bytes_from_record)
          % 256) :: (E ++ ctext))).getD 11 0)
      ((ty :: ver.major :: ver.minor :: (be64 seq ++
        ((cs_w.aead.output_length msg.length + cs_w.nonce_bytes_from_record)
          / 256) ::
        ((cs_w.aead.output_length msg.length + cs_w.nonce_bytes_from_record)
          % 256) :: (E ++ ctext))).getD 12 0)
      = cs_w.aead.output_length msg.length + cs_w.nonce_bytes_from_record := by
    rw [hg11, hg12]
    exact make_uint16_div_mod _
  have hload : load_be64 ((ty :: ver.major :: ver.minor :: (be64 seq ++
      ((cs_w.aead.output_length msg.length + cs_w.nonce_bytes_from_record)
        / 256) ::
      ((cs_w.aead.output_length msg.length + cs_w.nonce_bytes_from_record)
        % 256) :: (E ++ ctext))).drop 3) = seq := by
    show load_be64 (be64 seq ++ _) = seq
    exact load_be64_be64 seq _ hseq64
  have hbody : ((ty :: ver.major :: ver.minor :: (be64 seq ++
      ((cs_w.aead.output_length msg.length + cs_w.nonce_bytes_from_record)
        / 256) ::
      ((cs_w.aead.output_length msg.length + cs_w.nonce_bytes_from_record)
        % 256) :: (E ++ ctext))).drop DTLS_HEADER_SIZE).take
      (cs_w.aead.output_length msg.length + cs_w.nonce_bytes_from_record)
      = E ++ ctext := by
    have hdropall : (ty :: ver.major :: ver.minor :: (be64 seq ++
        ((cs_w.aead.output_length msg.length + cs_w.nonce_bytes_from_record)
          / 256) ::
        ((cs_w.aead.output_length msg.length + cs_w.nonce_bytes_from_record)
          % 256) :: (E ++ ctext))).drop DTLS_HEADER_SIZE = E ++ ctext := by
      show List.drop 10 (be64 seq ++ _) = E ++ ctext
      rw [show (10 : Nat) = (be64 seq).length + 2 by rw [hbe],
        List.drop_append]
      rfl
    rw [hdropall]
    exact List.take_of_length_le
      (by simp only [List.length_append, hElen, hctlen]; omega)
  have hguard : cs_r.aead.minimum_final_size
      ≤ (E ++ ctext).length - cs_r.nonce_bytes_from_record := by
    simp only [List.length_append, hElen, hctlen, hfr]
    omega
  have hproc : cs_r.aead.proc nW
      (Connection_Cipher_State.format_ad seq (ty % 256) ver
        (cs_r.aead.output_length
          ((E ++ ctext).length - cs_r.nonce_bytes_from_record)))
      ((E ++ ctext).drop cs_r.nonce_bytes_from_record) = some msg := by
    have hdrop : (E ++ ctext).drop cs_r.nonce_bytes_from_record = ctext := by
      rw [hfr, ← hElen]
      exact List.drop_left E ctext
    have harg : (E ++ ctext).length - cs_r.nonce_bytes_from_record
        = ctext.length := by
      simp only [List.length_append, hElen, hfr]
      omega
    rw [hdrop, harg, hctlen, hinv, format_ad_mod_type]
    exact hdec2
  have hdecfull : decrypt_record (E ++ ctext) seq ver ty cs_r = .ok msg :=
    decrypt_record_eq (E ++ ctext) seq ver ty cs_r nW msg hnr hguard hproc
  have hr := read_dtls_record_encrypted iface get_cs rec0 s
    (ty :: ver.major :: ver.minor :: (be64 seq ++
      ((cs_w.aead.output_length msg.length + cs_w.nonce_bytes_from_record)
        / 256) ::
      ((cs_w.aead.output_length msg.length + cs_w.nonce_bytes_from_record)
        % 256) :: (E ++ ctext))) cs_r msg
    (by rw [hlenbuf]; simp [DTLS_HEADER_SIZE])
    hver
    (by rw [hmk, hM]; omega)
    (by rw [hmk, hlenbuf]; simp [DTLS_HEADER_SIZE])
    (by rw [hload]; exact hseen)
    (by rw [hload]; exact hep)
    (by rw [hload]; exact hcs)
    (by rw [hmk, hbody, hload]; exact hdecfull)
  rw [hr, hload, hdata]
  rfl

theorem toyEnc_proc (msg : List Nat) : ∀ n a, ∃ c,
    toyEnc.proc n a msg = some c ∧ c.length = toyEnc.output_length msg.length := by
  intro n a
  exact ⟨msg ++ [tagFn n a msg], rfl, by simp [toyEnc]⟩

theorem toyDec_proc (msg : List Nat) : ∀ n a c,
    toyEnc.proc n a msg = some c → toyDec.proc n a c = some msg := by
  intro n a c h
  have hc : c = msg ++ [tagFn n a msg] := by
    simpa [toyEnc] using h.symm
  subst hc
  simp [toyDec, List.getLast?_concat, List.dropLast_concat]

/-- C1: for any matching writer/reader cipher state pair derived from the
same keys (matching nonce policy and implicit nonce, a sound AEAD
encrypt/decrypt pair), any record type, protocol version and payload of at
most 2¹⁴ bytes, feeding the buffer `write_record` produces into
`read_record` yields a record with exactly the original type, version,
sequence and payload, returns 0, and advances both sequence counters by one
(stream mode: the modelled write counter and `read_seq` each step by one;
datagram mode: `read_accept` marks the wire sequence in the window). -/
theorem C1_write_read_roundtrip
    (get_cs : Nat → Option Connection_Cipher_State)
    (cs_w cs_r : Connection_Cipher_State) (rng : List Nat) (ty : Nat)
    (ver : Protocol_Version) (msg : List Nat) (rec0 : Record)
    (hdata : rec0.data = [])
    (hlenm : msg.length ≤ 2 ^ 14)
    (hfmt : cs_r.nonce_format = cs_w.nonce_format)
    (hfr : cs_r.nonce_bytes_from_record = cs_w.nonce_bytes_from_record)
    (hfh : cs_r.nonce_bytes_from_handshake = cs_w.nonce_bytes_from_handshake)
    (himp : cs_r.nonce = cs_w.nonce)
    (hx12 : cs_w.nonce_format = .AEAD_XOR_12 →
      cs_w.nonce_bytes_from_record = 0)
    (hi4 : cs_w.nonce_format = .AEAD_IMPLICIT_4 →
      cs_w.nonce.length = 4 ∧ cs_w.nonce_bytes_from_handshake = 4 ∧
        cs_w.nonce_bytes_from_record = 8)
    (hcbc : cs_w.nonce_format = .CBC_MODE →
      (cs_w.nonce ≠ [] →
        cs_w.nonce.length = cs_w.nonce_bytes_from_record) ∧
      (cs_w.nonce = [] → cs_w.nonce_bytes_from_record ≤ rng.length))
    (hexp : cs_w.aead.output_length msg.length ≤ msg.length + 1024)
    (hfrb : cs_w.nonce_bytes_from_record ≤ 1000)
    (hpos : 0 < cs_w.aead.output_length msg.length)
    (hinv : cs_r.aead.output_length (cs_w.aead.output_length msg.length)
      = msg.length)
    (hmf : cs_r.aead.minimum_final_size ≤ cs_w.aead.output_length msg.length)
    (henc : ∀ n a, ∃ c, cs_w.aead.proc n a msg = some c ∧
      c.length = cs_w.aead.output_length msg.length)
    (hdec : ∀ n a c, cs_w.aead.proc n a msg = some c →
      cs_r.aead.proc n a c = some msg) :
    (∀ sq : Stream_Sequence_Numbers,
      ver.is_datagram_protocol = false →
      sq.read_seq = sq.write_seq →
      sq.read_epoch ≠ 0 →
      get_cs sq.read_epoch = some cs_r →
      ∃ buf cs2,
        write_record ty msg ver (sq.next_write_sequence).1 (some cs_w) rng
          = .ok (buf, some cs2) ∧
        (sq.next_write_sequence).2.write_seq = sq.write_seq + 1 ∧
        read_record false streamIface get_cs ⟨[], rec0, some sq⟩ buf
          = (.ok 0, ⟨[], ⟨ty, ver, sq.write_seq, msg⟩,
              some { sq with read_seq := sq.read_seq + 1 }⟩)) ∧
    (∀ (dq : Datagram_Sequence_Numbers) (seq : Nat),
      ver.is_datagram_protocol = true →
      seq < 2 ^ 64 →
      seq >>> 48 ≠ 0 →
      dq.window.contains seq = false →
      get_cs (seq >>> 48) = some cs_r →
      ∃ buf cs2,
        write_record ty msg ver seq (some cs_w) rng = .ok (buf, some cs2) ∧
        read_record true datagramIface get_cs ⟨[], rec0, some dq⟩ buf
          = (.ok 0, ⟨[], ⟨ty, ver, seq, msg⟩,
              some ⟨dq.read_epoch, seq :: dq.window⟩⟩)) := by
  constructor
  · intro sq hverf hsync hep hcs
    obtain ⟨nW, cs2, hnw, hElen, hnr⟩ := nonce_roundtrip_key cs_w cs_r rng
      hfmt hfr hfh himp hx12 hi4 hcbc sq.write_seq
    obtain ⟨ctext, hct, hctlen⟩ := henc nW
      (Connection_Cipher_State.format_ad sq.write_seq ty ver msg.length)
    obtain ⟨buf, hw, hr⟩ := roundtrip_tls_mode streamIface get_cs rec0 sq
      sq.write_seq cs_w cs_r cs2 rng ty ver msg nW _ ctext
      hverf hdata hnw rfl hElen (hnr ctext) hfr hct hctlen hexp hlenm hfrb
      hpos hinv hmf (hdec nW _ ctext hct) hsync hep hcs
    exact ⟨buf, cs2, hw, rfl, hr⟩
  · intro dq seq hvert hseq64 hepoch hwin hcs
    obtain ⟨nW, cs2, hnw, hElen, hnr⟩ := nonce_roundtrip_key cs_w cs_r rng
      hfmt hfr hfh himp hx12 hi4 hcbc seq
    obtain ⟨ctext, hct, hctlen⟩ := henc nW
      (Connection_Cipher_State.format_ad seq ty ver msg.length)
    obtain ⟨buf, hw, hr⟩ := roundtrip_dtls_mode datagramIface get_cs rec0 dq
      seq cs_w cs_r cs2 rng ty ver msg nW _ ctext
      hvert hdata hnw rfl hElen (hnr ctext) hfr hct hctlen hexp hlenm hfrb
      hpos hinv hmf (hdec nW _ ctext hct) hseq64 hwin hepoch hcs
    exact ⟨buf, cs2, hw, hr⟩

/-- C1 witness: a concrete XOR-12 cipher state pair built on the example
AEAD, exercised in both stream and datagram mode. -/
theorem C1_write_read_roundtrip_witness :
    (∃ buf cs2,
      write_record 23 [1, 2, 3] ⟨3, 3⟩
          ((Stream_Sequence_Numbers.mk 5 5 1).next_write_sequence).1
          (some ⟨.AEAD_XOR_12, 12, 0, List.replicate 12 4, toyEnc⟩) []
        = .ok (buf, some cs2) ∧
      ((Stream_Sequence_Numbers.mk 5 5 1).next_write_sequence).2.write_seq
        = 5 + 1 ∧
      read_record false streamIface
          (fun _ => some ⟨.AEAD_XOR_12, 12, 0, List.replicate 12 4, toyDec⟩)
          ⟨[], ⟨0, ⟨0, 0⟩, 0, []⟩, some ⟨5, 5, 1⟩⟩ buf
        = (.ok 0, ⟨[], ⟨23, ⟨3, 3⟩, 5, [1, 2, 3]⟩, some ⟨5, 6, 1⟩⟩)) ∧
    (∃ buf cs2,
      write_record 23 [1, 2, 3] ⟨254, 253⟩ ((1 <<< 48) + 7)
          (some ⟨.AEAD_XOR_12, 12, 0, List.replicate 12 4, toyEnc⟩) []
        = .ok (buf, some cs2) ∧
      read_record true datagramIface
          (fun _ => some ⟨.AEAD_XOR_12, 12, 0, List.replicate 12 4, toyDec⟩)
          ⟨[], ⟨0, ⟨0, 0⟩, 0, []⟩, some ⟨1, []⟩⟩ buf
        = (.ok 0, ⟨[], ⟨23, ⟨254, 253⟩, (1 <<< 48) + 7, [1, 2, 3]⟩,
            some ⟨1, [(1 <<< 48) + 7]⟩⟩)) := by
  constructor
  · exact (C1_write_read_roundtrip
      (fun _ => some ⟨.AEAD_XOR_12, 12, 0, List.replicate 12 4, toyDec⟩)
      ⟨.AEAD_XOR_12, 12, 0, List.replicate 12 4, toyEnc⟩
      ⟨.AEAD_XOR_12, 12, 0, List.replicate 12 4, toyDec⟩ [] 23 ⟨3, 3⟩
      [1, 2, 3] ⟨0, ⟨0, 0⟩, 0, []⟩ rfl (by decide) rfl rfl rfl rfl
      (fun _ => rfl) (by intro h; exact absurd h (by decide))
      (by intro h; exact absurd h (by decide)) (by decide) (by decide)
      (by decide) (by decide) (by decide) (toyEnc_proc [1, 2, 3])
      (toyDec_proc [1, 2, 3])).1 ⟨5, 5, 1⟩ (by decide) rfl (by decide) rfl
  · exact (C1_write_read_roundtrip
      (fun _ => some ⟨.AEAD_XOR_12, 12, 0, List.replicate 12 4, toyDec⟩)
      ⟨.AEAD_XOR_12, 12, 0, List.replicate 12 4, toyEnc⟩
      ⟨.AEAD_XOR_12, 12, 0, List.replicate 12 4, toyDec⟩ [] 23 ⟨254, 253⟩
      [1, 2, 3] ⟨0, ⟨0, 0⟩, 0, []⟩ rfl (by decide) rfl rfl rfl rfl
      (fun _ => rfl) (by intro h; exact absurd h (by decide))
      (by intro h; exact absurd h (by decide)) (by decide) (by decide)
      (by decide) (by decide) (by decide) (toyEnc_proc [1, 2, 3])
      (toyDec_proc [1, 2, 3])).2 ⟨1, []⟩ ((1 <<< 48) + 7) (by decide)
      (by decide) (by decide) (by decide) rfl

/-- C9 witness: the spec's S1 record `16 03 03 00 04 01 02 03 04` split after
three bytes: the first call asks for 2 more bytes, the second call agrees
with the one-shot parse. -/
theorem C9_incremental_parse_witness :
    (∃ k, 0 < k ∧
      (read_tls_record streamIface (fun _ => none)
        ⟨[], ⟨0, ⟨0, 0⟩, 0, []⟩, none⟩
        ([22, 3, 3, 0, 4, 1, 2, 3, 4].take 3)).1 = .ok k) ∧
    read_tls_record streamIface (fun _ => none)
        (read_tls_record streamIface (fun _ => none)
          ⟨[], ⟨0, ⟨0, 0⟩, 0, []⟩, none⟩
          ([22, 3, 3, 0, 4, 1, 2, 3, 4].take 3)).2
        ([22, 3, 3, 0, 4, 1, 2, 3, 4].drop 3)
      = read_tls_record streamIface (fun _ => none)
          ⟨[], ⟨0, ⟨0, 0⟩, 0, []⟩, none⟩ [22, 3, 3, 0, 4, 1, 2, 3, 4] :=
  C9_incremental_parse streamIface (fun _ => none) ⟨0, ⟨0, 0⟩, 0, []⟩ none
    [22, 3, 3, 0, 4, 1, 2, 3, 4] 3 (by decide) (by decide) (by decide)
    (by decide) (by decide)

end TLSRecord

namespace InverseMod

theorem ref_loop_succ (md : Int) (fuel u v : Nat) (B D : Int) :
    ref_loop md (fuel + 1) u v B D =
      if u = 0 then ((v : Nat), D)
      else
        if v >>> low_zero_bits v ≤ u >>> low_zero_bits u then
          ref_loop md fuel
            (u >>> low_zero_bits u - v >>> low_zero_bits v)
            (v >>> low_zero_bits v)
            (halve_iter md B (low_zero_bits u) - halve_iter md D (low_zero_bits v))
            (halve_iter md D (low_zero_bits v))
        else
          ref_loop md fuel
            (u >>> low_zero_bits u)
            (v >>> low_zero_bits v - u >>> low_zero_bits u)
            (halve_iter md B (low_zero_bits u))
            (halve_iter md D (low_zero_bits v) - halve_iter md B (low_zero_bits u)) :=
  rfl

theorem low_zero_bits_spec (n : Nat) (h : n ≠ 0) :
    (n >>> low_zero_bits n) % 2 = 1 ∧
      2 ^ low_zero_bits n * (n >>> low_zero_bits n) = n := by
  induction n using Nat.strong_induction_on with
  | _ n ih =>
    rw [low_zero_bits, if_neg h]
    by_cases h2 : n % 2 = 1
    · rw [if_pos h2]
      simpa using h2
    · rw [if_neg h2]
      have hhalf : n / 2 ≠ 0 := by omega
      have hlt : n / 2 < n := Nat.div_lt_self (Nat.pos_of_ne_zero h) (by omega)
      obtain ⟨e1, e2⟩ := ih (n / 2) hlt hhalf
      have hs : n >>> (low_zero_bits (n / 2) + 1) = (n / 2) >>> low_zero_bits (n / 2) := by
        rw [Nat.shiftRight_eq_div_pow, Nat.shiftRight_eq_div_pow,
          Nat.div_div_eq_div_mul, pow_succ, mul_comm ((2:Nat) ^ low_zero_bits (n / 2)) 2]
      constructor
      · rw [hs]; exact e1
      · rw [hs, pow_succ, mul_comm ((2:Nat) ^ low_zero_bits (n / 2)) 2, mul_assoc, e2]
        omega

theorem halve_adjust_two (md : Int) (hmd : md % 2 = 1) (B : Int) :
    2 * halve_adjust md B ≡ B [ZMOD md] := by
  rw [halve_adjust]
  rcases Int.emod_two_eq B with h | h
  · rw [if_pos h, Int.mul_ediv_cancel' (Int.dvd_of_emod_eq_zero h)]
  · rw [if_neg (by omega), Int.mul_ediv_cancel' (show (2:Int) ∣ B - md by omega)]
    show (B - md) % md = B % md
    rw [Int.sub_emod, Int.emod_self, sub_zero, Int.emod_emod_of_dvd _ dvd_rfl]

theorem halve_iter_two (md : Int) (hmd : md % 2 = 1) (k : Nat) :
    ∀ B : Int, 2 ^ k * halve_iter md B k ≡ B [ZMOD md] := by
  induction k with
  | zero =>
    intro B
    rw [pow_zero, one_mul]
    exact Int.ModEq.refl B
  | succ k ih =>
    intro B
    have h1 : (2:Int) ^ (k + 1) * halve_iter md B (k + 1)
        = 2 * (2 ^ k * halve_iter md (halve_adjust md B) k) := by
      rw [halve_iter]; ring
    rw [h1]
    exact ((ih (halve_adjust md B)).mul_left 2).trans (halve_adjust_two md hmd B)

theorem modeq_cancel_pow_two (md : Nat) (hmd : md % 2 = 1) (z : Nat) {a b : Int}
    (h : 2 ^ z * a ≡ 2 ^ z * b [ZMOD (md : Int)]) : a ≡ b [ZMOD (md : Int)] := by
  have hpos : (0:Int) < md := by omega
  have h' := Int.ModEq.cancel_left_div_gcd hpos h
  have hco : Int.gcd (md : Int) ((2:Int) ^ z) = 1 := by
    have h2 : ((2:Int) ^ z) = ((2 ^ z : Nat) : Int) := by push_cast; ring
    rw [h2, Int.gcd_natCast_natCast]
    exact Nat.Coprime.pow_right z (Nat.coprime_two_right.mpr (Nat.odd_iff.mpr hmd))
  rw [hco] at h'
  simpa using h'

theorem ref_loop_spec (n md : Nat) (hmd : md % 2 = 1) :
    ∀ (fuel u v : Nat) (B D : Int),
      u + v < fuel → 1 ≤ v → (u % 2 = 1 ∨ v % 2 = 1) →
      B * (n : Int) ≡ (u : Int) [ZMOD (md : Int)] →
      D * (n : Int) ≡ (v : Int) [ZMOD (md : Int)] →
      (ref_loop (md : Int) fuel u v B D).1 = Nat.gcd u v ∧
        (ref_loop (md : Int) fuel u v B D).2 * (n : Int)
          ≡ (Nat.gcd u v : Int) [ZMOD (md : Int)] := by
  intro fuel
  induction fuel with
  | zero =>
    intro u v B D hf
    exact absurd hf (by omega)
  | succ fuel ih =>
    intro u v B D hf hv hpar hB hD
    have hmdI : (md : Int) % 2 = 1 := by omega
    by_cases hu : u = 0
    · subst hu
      rw [ref_loop_succ, if_pos rfl]
      refine ⟨(Nat.gcd_zero_left v).symm, ?_⟩
      rw [Nat.gcd_zero_left]
      exact hD
    · obtain ⟨huo, hum⟩ := low_zero_bits_spec u hu
      obtain ⟨hvo, hvm⟩ := low_zero_bits_spec v (by omega)
      rw [ref_loop_succ, if_neg hu]
      set zu := low_zero_bits u with hzu
      set zv := low_zero_bits v with hzv
      set u2 := u >>> zu with hu2d
      set v2 := v >>> zv with hv2d
      set B2 := halve_iter (md : Int) B zu with hB2d
      set D2 := halve_iter (md : Int) D zv with hD2d
      have hu2pos : 1 ≤ u2 := by
        rcases Nat.eq_zero_or_pos u2 with h0 | h0
        · rw [h0, Nat.mul_zero] at hum; omega
        · exact h0
      have hv2pos : 1 ≤ v2 := by
        rcases Nat.eq_zero_or_pos v2 with h0 | h0
        · rw [h0, Nat.mul_zero] at hvm; omega
        · exact h0
      have hu2le : u2 ≤ u := by
        calc u2 ≤ 2 ^ zu * u2 := Nat.le_mul_of_pos_left u2 (Nat.two_pow_pos zu)
          _ = u := hum
      have hv2le : v2 ≤ v := by
        calc v2 ≤ 2 ^ zv * v2 := Nat.le_mul_of_pos_left v2 (Nat.two_pow_pos zv)
          _ = v := hvm
      have hB2 : B2 * (n : Int) ≡ (u2 : Int) [ZMOD (md : Int)] := by
        apply modeq_cancel_pow_two md hmd zu
        have h1 : (2:Int) ^ zu * (B2 * n) = (2 ^ zu * B2) * n := by ring
        have hBu : B * (n : Int) ≡ 2 ^ zu * (u2 : Int) [ZMOD (md : Int)] := by
          have hcast : ((u : Nat) : Int) = 2 ^ zu * (u2 : Int) := by exact_mod_cast hum.symm
          rw [← hcast]; exact hB
        rw [h1]
        exact ((halve_iter_two (md : Int) hmdI zu B).mul_right n).trans hBu
      have hD2 : D2 * (n : Int) ≡ (v2 : Int) [ZMOD (md : Int)] := by
        apply modeq_cancel_pow_two md hmd zv
        have h1 : (2:Int) ^ zv * (D2 * n) = (2 ^ zv * D2) * n := by ring
        have hDv : D * (n : Int) ≡ 2 ^ zv * (v2 : Int) [ZMOD (md : Int)] := by
          have hcast : ((v : Nat) : Int) = 2 ^ zv * (v2 : Int) := by exact_mod_cast hvm.symm
          rw [← hcast]; exact hD
        rw [h1]
        exact ((halve_iter_two (md : Int) hmdI zv D).mul_right n).trans hDv
      have hgcd : Nat.gcd u2 v2 = Nat.gcd u v := by
        rcases hpar with hup | hvp
        · have hz0 : zu = 0 := by
            rw [hzu, low_zero_bits, if_neg hu, if_pos hup]
          have hu2u : u2 = u := by rw [hu2d, hz0, Nat.shiftRight_zero]
          have hco : Nat.Coprime (2 ^ zv) u :=
            Nat.Coprime.pow_left zv (Nat.coprime_two_left.mpr (Nat.odd_iff.mpr hup))
          rw [hu2u, ← hvm]
          exact (Nat.Coprime.gcd_mul_left_cancel_right v2 hco).symm
        · have hz0 : zv = 0 := by
            rw [hzv, low_zero_bits, if_neg (by omega), if_pos hvp]
          have hv2v : v2 = v := by rw [hv2d, hz0, Nat.shiftRight_zero]
          have hco : Nat.Coprime (2 ^ zu) v :=
            Nat.Coprime.pow_left zu (Nat.coprime_two_left.mpr (Nat.odd_iff.mpr hvp))
          rw [hv2v, ← hum]
          exact (Nat.Coprime.gcd_mul_left_cancel u2 hco).symm
      by_cases hle : v2 ≤ u2
      · rw [if_pos hle]
        have hsum : (u2 - v2) + v2 < fuel := by omega
        have hBD : (B2 - D2) * (n : Int) ≡ ((u2 - v2 : Nat) : Int) [ZMOD (md : Int)] := by
          have hsub : ((u2 - v2 : Nat) : Int) = (u2 : Int) - v2 := by omega
          have h1 : (B2 - D2) * (n : Int) = B2 * n - D2 * n := by ring
          rw [hsub, h1]
          exact hB2.sub hD2
        obtain ⟨ih1, ih2⟩ := ih (u2 - v2) v2 (B2 - D2) D2 hsum hv2pos (Or.inr hvo) hBD hD2
        rw [Nat.gcd_sub_self_left hle, hgcd] at ih1 ih2
        exact ⟨ih1, ih2⟩
      · rw [if_neg hle]
        have hsum : u2 + (v2 - u2) < fuel := by omega
        have hDB : (D2 - B2) * (n : Int) ≡ ((v2 - u2 : Nat) : Int) [ZMOD (md : Int)] := by
          have hsub : ((v2 - u2 : Nat) : Int) = (v2 : Int) - u2 := by omega
          have h1 : (D2 - B2) * (n : Int) = D2 * n - B2 * n := by ring
          rw [hsub, h1]
          exact hD2.sub hB2
        obtain ⟨ih1, ih2⟩ := ih u2 (v2 - u2) B2 (D2 - B2) hsum (by omega) (Or.inl huo) hB2 hDB
        rw [Nat.gcd_sub_self_right (by omega), hgcd] at ih1 ih2
        exact ⟨ih1, ih2⟩

theorem gcdA_mul_emod (n md : Nat) (hg : Nat.gcd n md = 1) :
    ((n : Int) * Nat.gcdA n md) % (md : Int) = 1 % (md : Int) := by
  have hab := Nat.gcd_eq_gcd_ab n md
  rw [hg] at hab
  conv_rhs => rw [show (1 : Int) = (n : Int) * Nat.gcdA n md + (md : Int) * Nat.gcdB n md from
    by exact_mod_cast hab]
  rw [Int.add_mul_emod_self_left]

/-- C10: for every `x` and odd `mod ≥ 3` with `x < mod`, the binary
extended-Euclidean reference `inverse_mod_ref x mod` agrees with
`ct_inverse_mod_odd_modulus x mod`, and the common value is the modular
inverse of `x` in `[0, mod)` when `x ≠ 0` and `gcd(x, mod) = 1`, and `0`
otherwise. -/
theorem C10_inverse_mod_refinement (n md : Nat) (hodd : md % 2 = 1)
    (h3 : 3 ≤ md) (hlt : n < md) :
    inverse_mod_ref n md = ct_inverse_mod_odd_modulus n md ∧
      (if n = 0 ∨ Nat.gcd n md ≠ 1 then ct_inverse_mod_odd_modulus n md = 0
       else ct_inverse_mod_odd_modulus n md < md ∧
         (ct_inverse_mod_odd_modulus n md * n) % md = 1) := by
  constructor
  · by_cases hn : n = 0
    · subst hn
      rw [inverse_mod_ref, ct_inverse_mod_odd_modulus]
      simp
    · have h0B : (0 : Int) * (n : Int) ≡ ((md : Nat) : Int) [ZMOD (md : Int)] := by
        show ((0 : Int) * n) % md = ((md : Nat) : Int) % md
        simp [Int.emod_self]
      have h1D : (1 : Int) * (n : Int) ≡ ((n : Nat) : Int) [ZMOD (md : Int)] := by
        rw [one_mul]
      obtain ⟨h1, h2⟩ := ref_loop_spec n md hodd (md + n + 1) md n 0 1
        (by omega) (by omega) (Or.inl hodd) h0B h1D
      rw [inverse_mod_ref, if_neg hn]
      show (if (ref_loop (md : Int) (md + n + 1) md n 0 1).1 ≠ 1 then 0
        else ((ref_loop (md : Int) (md + n + 1) md n 0 1).2 % (md : Int)).toNat)
          = ct_inverse_mod_odd_modulus n md
      by_cases hg : Nat.gcd n md = 1
      · have hg' : Nat.gcd md n = 1 := by rw [Nat.gcd_comm]; exact hg
        rw [h1, hg', if_neg (by simp)]
        rw [ct_inverse_mod_odd_modulus, if_neg (by simp [hn, hg])]
        have h2' : (ref_loop (md : Int) (md + n + 1) md n 0 1).2 * (n : Int)
            ≡ 1 [ZMOD (md : Int)] := by
          simpa [hg'] using h2
        have hA : (n : Int) * Nat.gcdA n md ≡ 1 [ZMOD (md : Int)] := gcdA_mul_emod n md hg
        set r2 := (ref_loop (md : Int) (md + n + 1) md n 0 1).2 with hr2
        have huniq : r2 ≡ Nat.gcdA n md [ZMOD (md : Int)] := by
          have t1 : r2 * ((n : Int) * Nat.gcdA n md) ≡ r2 * 1 [ZMOD (md : Int)] :=
            hA.mul_left r2
          rw [mul_one] at t1
          have e1 : r2 * ((n : Int) * Nat.gcdA n md) = (r2 * n) * Nat.gcdA n md := by ring
          rw [e1] at t1
          have t2 : (r2 * (n : Int)) * Nat.gcdA n md ≡ 1 * Nat.gcdA n md [ZMOD (md : Int)] :=
            h2'.mul_right _
          rw [one_mul] at t2
          exact t1.symm.trans t2
        have heq : r2 % (md : Int) = Nat.gcdA n md % (md : Int) := huniq
        rw [heq]
      · have hg' : Nat.gcd md n ≠ 1 := by rw [Nat.gcd_comm]; exact hg
        rw [h1, if_pos hg', ct_inverse_mod_odd_modulus, if_pos (Or.inr hg)]
  · by_cases h : n = 0 ∨ Nat.gcd n md ≠ 1
    · rw [if_pos h, ct_inverse_mod_odd_modulus, if_pos h]
    · rw [if_neg h]
      push_neg at h
      obtain ⟨hn0, hg1⟩ := h
      rw [ct_inverse_mod_odd_modulus, if_neg (by simp [hn0, hg1])]
      have hmd0 : (0 : Int) < md := by omega
      have hnn : 0 ≤ Nat.gcdA n md % (md : Int) := Int.emod_nonneg _ (by omega)
      have hub : Nat.gcdA n md % (md : Int) < md := Int.emod_lt_of_pos _ hmd0
      constructor
      · omega
      · have hA' : ((n : Int) * Nat.gcdA n md) % (md : Int) = 1 :=
          (gcdA_mul_emod n md hg1).trans (Int.emod_eq_of_lt (by omega) (by omega))
        have key : ((Nat.gcdA n md % (md : Int)) * n) % (md : Int) = 1 := by
          rw [Int.mul_emod, Int.emod_emod_of_dvd _ dvd_rfl, ← Int.mul_emod, mul_comm]
          exact hA'
        have h0 : ((((Nat.gcdA n md % (md : Int)).toNat * n) % md : Nat) : Int)
            = ((Nat.gcdA n md % (md : Int)) * (n : Int)) % (md : Int) := by
          push_cast [Int.toNat_of_nonneg hnn]
          ring_nf
        have hfin : ((((Nat.gcdA n md % (md : Int)).toNat * n) % md : Nat) : Int)
            = ((1 : Nat) : Int) := by
          rw [h0, key]; simp
        exact_mod_cast hfin

/-- C10 witness: `x = 4`, `mod = 9` (odd, coprime): both sides give the
inverse `7`, which is below `9` and satisfies `7 * 4 % 9 = 1`. -/
theorem C10_inverse_mod_refinement_witness :
    9 % 2 = 1 ∧ 3 ≤ 9 ∧ 4 < 9 ∧
      (inverse_mod_ref 4 9 = ct_inverse_mod_odd_modulus 4 9 ∧
        (if (4 : Nat) = 0 ∨ Nat.gcd 4 9 ≠ 1 then ct_inverse_mod_odd_modulus 4 9 = 0
         else ct_inverse_mod_odd_modulus 4 9 < 9 ∧
           (ct_inverse_mod_odd_modulus 4 9 * 4) % 9 = 1)) :=
  ⟨by decide, by decide, by decide,
    C10_inverse_mod_refinement 4 9 (by decide) (by decide) (by decide)⟩

end InverseMod
